import Mathlib

/-!
Verification development for the import scanner
(`tools/isobuild/import-scanner.ts`).

The embedding is shallow: JavaScript strings and Buffers are modelled as
lists of characters (all file contents are treated as valid UTF-8, so a
Buffer is identified with the string it decodes to), SHA-1 is modelled as
an injective digest function, and association objects keyed by strings are
modelled as insertion-ordered association lists, matching the key ordering
guarantees of JavaScript objects.  External collaborators of the scanner
(the reify compiler, the CSS wrapper, the source-map library, the resolver
and the optimistic filesystem layer) are consumed as opaque pure functions,
exactly as the specification describes them, and appear here as parameters
or as definitions marked "Modelled from the spec".
-/

/-- JavaScript strings and UTF-8 Buffers are both modelled as `List Char`. -/
abbrev Str := List Char

/-- Shorthand turning a Lean string literal into the model type. -/
def strL (s : String) : Str := s.toList

/-- Modelled digest: `sha1` from the watch module is consumed as an opaque
injective hash; mapping each character to its code point is injective and
keeps every statement executable. -/
def sha1 (data : Str) : List Nat := data.map Char.toNat

/-- Buffers are identified with the strings they decode to, so the UTF-8
encoding function is the identity on the model type. -/
def utf8Encode (s : Str) : Str := s

/-- Lookup in an insertion-ordered association list (a JavaScript object). -/
def assocLookup {β : Type} (l : List (Str × β)) (k : Str) : Option β :=
  match l.find? (fun p => p.1 = k) with
  | some p => some p.2
  | none => none

/-- Key-presence test, `has(obj, k)`. -/
def assocHas {β : Type} (l : List (Str × β)) (k : Str) : Bool :=
  (assocLookup l k).isSome

/-- `obj[k] = v`: update the value in place when the key exists, append the
key at the end otherwise (JavaScript objects keep insertion order). -/
def assocSet {β : Type} (l : List (Str × β)) (k : Str) (v : β) : List (Str × β) :=
  match l with
  | [] => [(k, v)]
  | (k0, v0) :: rest =>
    if k0 = k then (k0, v) :: rest else (k0, v0) :: assocSet rest k v

/-- `dataString.replace(/^#![^\n]*/, "")`: when the string starts with a
shebang the whole leading run of non-newline characters is removed. -/
def stripHashBang (s : Str) : Str :=
  match s with
  | '#' :: '!' :: _ => s.dropWhile (fun c => c ≠ '\n')
  | _ => s

/-- The tri-state `file.imported` value: `false`, `"dynamic"`, `"static"`. -/
inductive ImportedStatus
  | off
  | dyn
  | stat
deriving DecidableEq, Repr

/-- Position of a status in `importedStatusOrder = [false, "dynamic", "static"]`. -/
def statusIndex : ImportedStatus → Nat
  | .off => 0
  | .dyn => 1
  | .stat => 2

/-- Inverse of `statusIndex`, `importedStatusOrder[i]`. -/
def statusOfIndex : Nat → ImportedStatus
  | 0 => .off
  | 1 => .dyn
  | _ => .stat

/-- `setImportedStatus(file, status)` expressed on the status lattice: the
new value of `file.imported` given the current one and the candidate. -/
def setImportedStatus (cur status : ImportedStatus) : ImportedStatus :=
  if statusIndex cur < statusIndex status then status else cur

/-- The maximum status of a list of files, as computed by
`alignImportedStatuses`: `importedStatusOrder[Math.max(...indexes)]`.
(The scanner only ever calls this on nonempty lists, so starting the fold
at index 0 is faithful.) -/
def maxImported (l : List ImportedStatus) : ImportedStatus :=
  statusOfIndex (l.foldl (fun m s => max m (statusIndex s)) 0)

theorem statusOfIndex_statusIndex (s : ImportedStatus) :
    statusOfIndex (statusIndex s) = s := by
  cases s <;> rfl

theorem statusIndex_le_two (s : ImportedStatus) : statusIndex s ≤ 2 := by
  cases s <;> simp [statusIndex]

theorem statusIndex_statusOfIndex {n : Nat} (h : n ≤ 2) :
    statusIndex (statusOfIndex n) = n := by
  interval_cases n <;> rfl

theorem foldl_max_le_two (l : List ImportedStatus) (a : Nat) (ha : a ≤ 2) :
    l.foldl (fun m s => max m (statusIndex s)) a ≤ 2 := by
  induction l generalizing a with
  | nil => simpa using ha
  | cons x xs ih =>
    exact ih _ (by simp [Nat.max_le, ha, statusIndex_le_two x])

theorem init_le_foldl_max (l : List ImportedStatus) (a : Nat) :
    a ≤ l.foldl (fun m t => max m (statusIndex t)) a := by
  induction l generalizing a with
  | nil => simp
  | cons x xs ih =>
    simp only [List.foldl_cons]
    exact le_trans (le_max_left _ _) (ih _)

theorem le_foldl_max (l : List ImportedStatus) (a : Nat) {s : ImportedStatus}
    (hs : s ∈ l) : statusIndex s ≤ l.foldl (fun m t => max m (statusIndex t)) a := by
  induction l generalizing a with
  | nil => cases hs
  | cons x xs ih =>
    simp only [List.foldl_cons]
    rcases List.mem_cons.mp hs with h | h
    · subst h
      exact le_trans (le_max_right _ _) (init_le_foldl_max xs _)
    · exact ih _ h

theorem statusIndex_maxImported_ge (l : List ImportedStatus) {s : ImportedStatus}
    (hs : s ∈ l) : statusIndex s ≤ statusIndex (maxImported l) := by
  unfold maxImported
  rw [statusIndex_statusOfIndex (foldl_max_le_two l 0 (by norm_num))]
  exact le_foldl_max l 0 hs

/-! ## File bodies, transcoding and hashing

Model of the parts of the scanner that manipulate `file.data`,
`file.dataString` and `file.hash`: `getDataString`, `readFile`,
`readModule` and `combineFiles`. -/

/-- The fields of a scanner `File` that the data/hash operations touch.
`data` is a Buffer (modelled as the decoded string, `none` when absent),
`dataString` is `undefined` until it is first computed, and `lazy`/`bare`
track presence (`has(file, name)`) as well as the value. -/
structure CFile where
  ftype : Str := strL "js"
  dataString : Option Str := none
  data : Option Str := none
  hash : List Nat := []
  lazy : Option Bool := none
  bare : Option Bool := none
  imported : ImportedStatus := .off
  sourceMap : Option Str := none
  sourcePath : Str := []
deriving DecidableEq, Repr

/-- The consumed transcoding interfaces, passed in as opaque pure
functions: `run ext file` is `defaultHandlers[ext](file)` (the reify
compiler for `js`/`mjs`, the JSON and CSS wrappers), `parsesAsJS` is
`canBeParsedAsPlainJS` (a speculative `vm.Script` parse), and
`combineMaps oldMap oldBody newMap newBody` is the `mappings` string of
the source map produced by the source-node library in `combineFiles`. -/
structure Handlers where
  run : Str → CFile → Str
  parsesAsJS : Str → Bool
  combineMaps : Option Str → Str → Option Str → Str → Str

/-- The extensions owned by `DefaultHandlers.prototype`
(`has(DefaultHandlers.prototype, ext)`); besides the four handler methods
the prototype also owns `constructor` and `getCacheFileName`, which are
not handlers and are excluded from the model. -/
def hasDefaultHandler (ext : Str) : Bool :=
  ext = strL "js" || ext = strL "mjs" || ext = strL "json" || ext = strL "css"

/-- `getDataString(file)`: returns the existing `dataString` when present;
otherwise decodes `file.data`, strips the shebang for `js` files or runs
the registered type handler for other types, and re-encodes `data` when
the string changed (or when `data` was not a Buffer).  Returns the string
together with the updated file.  Note that `file.hash` is not touched. -/
def getDataString (h : Handlers) (f : CFile) : Str × CFile :=
  match f.dataString with
  | some s => (s, f)
  | none =>
    let rawDataString := f.data.getD []
    if f.ftype = strL "js" then
      let ds := stripHashBang rawDataString
      let f1 := { f with dataString := some ds }
      let f2 := if f.data.isNone || ds ≠ rawDataString then
          { f1 with data := some (utf8Encode ds) } else f1
      (ds, f2)
    else
      let f1 := { f with dataString := some rawDataString }
      let ds := h.run f.ftype f1
      let f2 := { f1 with dataString := some ds }
      let f3 := if f.data.isNone || ds ≠ rawDataString then
          { f2 with data := some (utf8Encode ds) } else f2
      (ds, f3)

/-- Modelled from the spec: `optimisticHashOrNull` of the filesystem layer
returns the SHA-1 hash of the raw file contents. -/
def fsHashOf (raw : Str) : List Nat := sha1 raw

/-- The byte-order mark, U+FEFF. -/
def bomChar : Char := '\uFEFF'

/-- `readFile(absPath)` applied to the raw contents found on disk: decodes
the Buffer, and when the decoded string starts with U+FEFF strips that one
character and recomputes `data` and `hash` from the stripped string. -/
def readFile (raw : Str) : CFile :=
  let info : CFile := { data := some raw, hash := fsHashOf raw, dataString := some raw }
  match raw with
  | c :: rest =>
    if c = bomChar then
      { info with dataString := some rest, data := some (utf8Encode rest),
                  hash := sha1 (utf8Encode rest) }
    else info
  | [] => info

/-- The tail of `readModule`: run `defaultHandlers[ext]` over the file,
store the result in `dataString`, and re-encode `data` when the string
changed. -/
def applyHandler (h : Handlers) (ext : Str) (info : CFile) : CFile :=
  let dataString := info.dataString.getD []
  let ds := h.run ext info
  let info1 := { info with dataString := some ds }
  if ds ≠ dataString then { info1 with data := some (utf8Encode ds) } else info1

/-- `readModule(absPath)` applied to the extension of the path and the raw
contents.  `.node` modules become a throwing stub; otherwise the file is
read, an extension handler is selected (falling back to `js` when the
contents parse as plain JavaScript, giving up otherwise) and applied.
`hash` keeps the value assigned by `readFile`. -/
def readModule (h : Handlers) (web : Bool) (dotExt : Str) (raw : Str) : Option CFile :=
  if dotExt = strL ".node" then
    let msg := if web then strL "cannot load native .node modules on the client"
               else strL "module.useNode() must succeed for native .node modules"
    let ds := strL "throw new Error(\"" ++ msg ++ strL "\");\n"
    some { data := some (utf8Encode ds), dataString := some ds, hash := sha1 (utf8Encode ds) }
  else
    let info := readFile raw
    let ext0 := dotExt.drop 1
    if hasDefaultHandler ext0 then some (applyHandler h ext0 info)
    else if h.parsesAsJS (info.dataString.getD []) then some (applyHandler h (strL "js") info)
    else none

/-- `checkProperty` for one of `lazy`/`bare`: a value present on only one
file is copied to the other before comparison. -/
def syncProp (a b : Option Bool) : Option Bool × Option Bool :=
  match a, b with
  | some x, none => (some x, some x)
  | none, some y => (some y, some y)
  | _, _ => (a, b)

/-- The two files disagree on a flag after presence-copying: both carry a
value and the values differ. -/
def propConflict (a b : Option Bool) : Bool :=
  match a, b with
  | some x, some y => x ≠ y
  | _, _ => false

/-- `combineFiles(oldFile, newFile)`: checks that `lazy` and `bare` agree
(after copying a flag present on only one side), concatenates the two
bodies with a blank line between them, recomputes `data` and `hash`,
aligns the imported statuses of both files to their maximum, and keeps the
combined source map only when its `mappings` are nonempty.  Returns the
updated pair `(oldFile, newFile)`, or the fatal error. -/
def combineFiles (h : Handlers) (oldF newF : CFile) : Except Str (CFile × CFile) :=
  let (ol, nl) := syncProp oldF.lazy newF.lazy
  if propConflict ol nl then .error (strL "Attempting to combine different files") else
  let o1 := { oldF with lazy := ol }
  let n1 := { newF with lazy := nl }
  let (ob, nb) := syncProp o1.bare n1.bare
  if propConflict ob nb then .error (strL "Attempting to combine different files") else
  let o2 := { o1 with bare := ob }
  let n2 := { n1 with bare := nb }
  let (oldBody, o3) := getDataString h o2
  let (newBody, n3) := getDataString h n2
  let combinedDataString := oldBody ++ strL "\n\n" ++ newBody
  let o4 := { o3 with dataString := some combinedDataString,
                      data := some (utf8Encode combinedDataString),
                      hash := sha1 (utf8Encode combinedDataString) }
  let m := maxImported [o4.imported, n3.imported]
  let o5 := { o4 with imported := m }
  let n4 := { n3 with imported := m }
  let mappings := h.combineMaps o3.sourceMap oldBody n3.sourceMap newBody
  let o6 := { o5 with sourceMap := if mappings = [] then none else some mappings }
  .ok (o6, n4)

/-- After `readFile`, `data` is always the encoding of `dataString`. -/
theorem readFile_data_dataString (raw : Str) :
    ∃ s, (readFile raw).dataString = some s ∧ (readFile raw).data = some (utf8Encode s) := by
  unfold readFile
  match raw with
  | [] => exact ⟨[], rfl, rfl⟩
  | c :: rest =>
    by_cases hc : c = bomChar
    · exact ⟨rest, by simp [hc], by simp [hc]⟩
    · exact ⟨c :: rest, by simp [hc, utf8Encode], by simp [hc, utf8Encode]⟩

theorem readFile_hash_of_no_bom (raw : Str) (h : raw.head? ≠ some bomChar) :
    (readFile raw).hash = fsHashOf raw := by
  unfold readFile
  match raw with
  | [] => rfl
  | c :: rest =>
    simp only [List.head?] at h
    have : ¬ c = bomChar := fun hc => h (by rw [hc])
    simp [this]

/-- `applyHandler` keeps `data` in sync with the rewritten `dataString`
and never touches `hash`. -/
theorem applyHandler_spec (h : Handlers) (ext : Str) (info : CFile) (s : Str)
    (hds : info.dataString = some s) (hdata : info.data = some (utf8Encode s)) :
    (applyHandler h ext info).dataString = some (h.run ext info) ∧
    (applyHandler h ext info).data = some (utf8Encode (h.run ext info)) ∧
    (applyHandler h ext info).hash = info.hash := by
  unfold applyHandler
  rw [hds]
  by_cases hne : h.run ext info = s
  · simp [hne, hdata]
  · simp [hne]

/-- C2 (amended): at both places where the scanner rewrites `dataString`
(`getDataString` transcoding a file whose `dataString` was unset, and
`readModule` running a type handler), afterwards `file.data` equals the
UTF-8 encoding of `file.dataString`; `file.hash`, however, is left
unchanged by both operations — it keeps the value assigned when the file
was read — so `hash` equals the SHA-1 of `data` only when the rewritten
string happens to equal the raw decoded string. -/
theorem c2_data_encoding_hash_stale (h : Handlers) :
    (∀ f d, f.data = some d → f.dataString = none →
      (getDataString h f).2.dataString = some (getDataString h f).1 ∧
      (getDataString h f).2.data = some (utf8Encode (getDataString h f).1) ∧
      (getDataString h f).2.hash = f.hash) ∧
    (∀ web dotExt raw f', dotExt ≠ strL ".node" →
      readModule h web dotExt raw = some f' →
      ∃ s, f'.dataString = some s ∧ f'.data = some (utf8Encode s) ∧
        f'.hash = (readFile raw).hash) := by
  constructor
  · intro f d hdata hds
    unfold getDataString
    rw [hds]
    simp only [hdata, Option.getD_some, Option.isNone_some, Bool.false_or]
    split
    · split <;> simp_all [utf8Encode]
    · split <;> simp_all [utf8Encode]
  · intro web dotExt raw f' hnode hres
    unfold readModule at hres
    rw [if_neg hnode] at hres
    obtain ⟨s, hs, hdata⟩ := readFile_data_dataString raw
    by_cases hh : hasDefaultHandler (dotExt.drop 1) = true
    · simp only [hh, if_true, Option.some.injEq] at hres
      obtain ⟨h1, h2, h3⟩ := applyHandler_spec h (dotExt.drop 1) (readFile raw) s hs hdata
      exact ⟨_, hres ▸ h1, hres ▸ h2, hres ▸ h3⟩
    · rw [Bool.not_eq_true] at hh
      simp only [hh, Bool.false_eq_true, if_false] at hres
      by_cases hp : h.parsesAsJS ((readFile raw).dataString.getD []) = true
      · simp only [hp, if_true, Option.some.injEq] at hres
        obtain ⟨h1, h2, h3⟩ := applyHandler_spec h (strL "js") (readFile raw) s hs hdata
        exact ⟨_, hres ▸ h1, hres ▸ h2, hres ▸ h3⟩
      · rw [Bool.not_eq_true] at hp
        simp [hp] at hres

/-- A concrete instance of the consumed transcoder interfaces, used to
evaluate the model on closed inputs. -/
def trivialHandlers : Handlers where
  run := fun _ f => f.dataString.getD []
  parsesAsJS := fun _ => true
  combineMaps := fun _ _ _ _ => []

/-- A `js` file fresh from disk whose body carries a shebang line: its
stored hash is the filesystem hash of the raw contents. -/
def hashbangFile : CFile :=
  { ftype := strL "js", data := some (strL "#!x\ny"), hash := sha1 (strL "#!x\ny") }

/-- C2, counterexample: transcoding a shebang `js` file with
`getDataString` leaves `hash` equal to the SHA-1 of the raw contents while
`data` is rewritten to the stripped body, so afterwards `hash` is not the
SHA-1 of `data` even though it was before the call. -/
theorem c2_counterexample :
    (getDataString trivialHandlers hashbangFile).2.hash ≠
      sha1 (((getDataString trivialHandlers hashbangFile).2.data).getD []) ∧
    hashbangFile.hash = sha1 (hashbangFile.data.getD []) := by decide

/-- C2, witness: the amended statement evaluated at the shebang file. -/
theorem c2_witness :
    hashbangFile.data = some (strL "#!x\ny") ∧ hashbangFile.dataString = none ∧
    (getDataString trivialHandlers hashbangFile).2.data
      = some (utf8Encode (getDataString trivialHandlers hashbangFile).1) ∧
    (getDataString trivialHandlers hashbangFile).2.hash = hashbangFile.hash :=
  ⟨rfl, rfl,
   ((c2_data_encoding_hash_stale trivialHandlers).1 hashbangFile (strL "#!x\ny") rfl rfl).2.1,
   ((c2_data_encoding_hash_stale trivialHandlers).1 hashbangFile (strL "#!x\ny") rfl rfl).2.2⟩

/-- C10 (amended): when the decoded contents read from disk begin with a
byte-order mark, `readFile` strips that first character and recomputes
both `data` and `hash` from the stripped string, and the resulting hash
differs from the filesystem hash of the raw bytes; the stripping removes
only the first code unit, so a body can still begin with a BOM when the
raw contents begin with two of them. -/
theorem c10_readFile_strips_bom (raw : Str) (c : Char) (rest : Str)
    (hr : raw = c :: rest) (hc : c = bomChar) :
    (readFile raw).dataString = some rest ∧
    (readFile raw).data = some (utf8Encode rest) ∧
    (readFile raw).hash = sha1 (utf8Encode rest) ∧
    (readFile raw).hash ≠ fsHashOf raw := by
  subst hr hc
  refine ⟨by simp [readFile], by simp [readFile], by simp [readFile], ?_⟩
  simp only [readFile, if_pos rfl]
  intro heq
  have := congrArg List.length heq
  simp [sha1, fsHashOf, utf8Encode] at this

/-- C10, counterexample: a file whose raw contents are two byte-order
marks followed by `x` still produces a `dataString` that starts with a
BOM, refuting the claim that no body produced from disk starts with one. -/
theorem c10_counterexample :
    ((readFile (strL "﻿﻿x")).dataString.getD []).head? = some bomChar := by decide

/-- C10, witness: the amended statement evaluated on a single-BOM file. -/
theorem c10_witness :
    strL "﻿a" = bomChar :: strL "a" ∧
    (readFile (strL "﻿a")).dataString = some (strL "a") ∧
    (readFile (strL "﻿a")).hash ≠ fsHashOf (strL "﻿a") :=
  ⟨by decide,
   (c10_readFile_strips_bom (strL "﻿a") bomChar (strL "a") (by decide) rfl).1,
   (c10_readFile_strips_bom (strL "﻿a") bomChar (strL "a") (by decide) rfl).2.2.2⟩

/-- Copying a flag that is present on only one file never creates a
disagreement: the conflict after `checkProperty` copying equals the
conflict between the original values. -/
theorem propConflict_sync (a b : Option Bool) :
    propConflict (syncProp a b).1 (syncProp a b).2 = propConflict a b := by
  cases a <;> cases b <;> simp [syncProp, propConflict]

/-- C6: `combineFiles(oldFile, newFile)` raises its fatal error exactly
when the two files genuinely disagree on `lazy` or on `bare` (a flag
present on only one file is first copied to the other); on success the
old file's `dataString` becomes old body `"\n\n"` new body with `data`
and `hash` recomputed from it, the `imported` statuses of both files are
aligned to their maximum, and a combined source map with empty `mappings`
is replaced by `null`. -/
theorem c6_combineFiles_spec (h : Handlers) (oldF newF : CFile) (ob nb : Str)
    (h1 : oldF.dataString = some ob) (h2 : newF.dataString = some nb) :
    ((combineFiles h oldF newF).isOk = false ↔
      (propConflict oldF.lazy newF.lazy = true ∨ propConflict oldF.bare newF.bare = true)) ∧
    (∀ o' n', combineFiles h oldF newF = .ok (o', n') →
      o'.dataString = some (ob ++ strL "\n\n" ++ nb) ∧
      o'.data = some (utf8Encode (ob ++ strL "\n\n" ++ nb)) ∧
      o'.hash = sha1 (utf8Encode (ob ++ strL "\n\n" ++ nb)) ∧
      o'.imported = maxImported [oldF.imported, newF.imported] ∧
      n'.imported = maxImported [oldF.imported, newF.imported] ∧
      o'.sourceMap = (if h.combineMaps oldF.sourceMap ob newF.sourceMap nb = [] then none
                      else some (h.combineMaps oldF.sourceMap ob newF.sourceMap nb))) := by
  have hcl := propConflict_sync oldF.lazy newF.lazy
  have hcb := propConflict_sync oldF.bare newF.bare
  unfold combineFiles
  rcases hls : syncProp oldF.lazy newF.lazy with ⟨sl, tl⟩
  rw [hls] at hcl
  rcases hbs : syncProp oldF.bare newF.bare with ⟨sb, tb⟩
  rw [hbs] at hcb
  simp only [hls]
  by_cases hc1 : propConflict sl tl = true
  · simp only [hc1, if_true]
    constructor
    · simp only [Except.isOk, Except.toBool]
      exact ⟨fun _ => Or.inl (hcl ▸ hc1), fun _ => trivial⟩
    · intro o' n' hok
      simp at hok
  · simp only [Bool.not_eq_true] at hc1
    simp only [hc1, Bool.false_eq_true, if_false]
    have hbare : ({ oldF with lazy := sl } : CFile).bare = oldF.bare := rfl
    simp only [hbs]
    by_cases hc2 : propConflict sb tb = true
    · simp only [hc2, if_true]
      constructor
      · simp only [Except.isOk, Except.toBool]
        exact ⟨fun _ => Or.inr (hcb ▸ hc2), fun _ => trivial⟩
      · intro o' n' hok
        simp at hok
    · simp only [Bool.not_eq_true] at hc2
      simp only [hc2, Bool.false_eq_true, if_false]
      simp only [getDataString, h1, h2]
      constructor
      · simp only [Except.isOk, Except.toBool]
        constructor
        · intro hfalse
          cases hfalse
        · intro hor
          rcases hor with hx | hx
          · rw [hcl] at hc1
            rw [hc1] at hx
            cases hx
          · rw [hcb] at hc2
            rw [hc2] at hx
            cases hx
      · intro o' n' hok
        simp only [Except.ok.injEq, Prod.mk.injEq] at hok
        obtain ⟨ho, hn⟩ := hok
        subst ho hn
        refine ⟨rfl, rfl, rfl, rfl, rfl, rfl⟩

/-- Two seed files with the same case-folded path, both lazy, neither
bare, used to evaluate `combineFiles`. -/
def oldSeed : CFile :=
  { dataString := some (strL "old"), data := some (strL "old"),
    hash := sha1 (strL "old"), lazy := some true, imported := .dyn }

/-- The colliding newer seed file. -/
def newSeed : CFile :=
  { dataString := some (strL "new"), data := some (strL "new"),
    hash := sha1 (strL "new"), lazy := some true, bare := some false, imported := .stat }

/-- The pair produced by combining the two seed files. -/
def combineSeeds : CFile × CFile :=
  ((combineFiles trivialHandlers oldSeed newSeed).toOption).getD (({} : CFile), ({} : CFile))

/-- C6, witness: the combination statement evaluated on the two seeds. -/
theorem c6_witness :
    oldSeed.dataString = some (strL "old") ∧ newSeed.dataString = some (strL "new") ∧
    ((combineFiles trivialHandlers oldSeed newSeed).isOk = false ↔
      (propConflict oldSeed.lazy newSeed.lazy = true ∨
       propConflict oldSeed.bare newSeed.bare = true)) ∧
    combineSeeds.1.dataString = some (strL "old" ++ strL "\n\n" ++ strL "new") ∧
    combineSeeds.1.imported = maxImported [oldSeed.imported, newSeed.imported] :=
  ⟨rfl, rfl,
   (c6_combineFiles_spec trivialHandlers oldSeed newSeed _ _ rfl rfl).1,
   ((c6_combineFiles_spec trivialHandlers oldSeed newSeed _ _ rfl rfl).2
     combineSeeds.1 combineSeeds.2 rfl).1,
   ((c6_combineFiles_spec trivialHandlers oldSeed newSeed _ _ rfl rfl).2
     combineSeeds.1 combineSeeds.2 rfl).2.2.2.1⟩

/-! ## Output files, realpath coalescing and the emitted set

Model of `alignImportedStatuses`, `mergeFilesWithSameRealPath` and
`getOutputFiles`.  Files live in the `outputFiles` array and are
identified by their index; `realPathToFiles` groups indices of files that
share one realpath (the scanner stores object references, modelled here as
indices into `outputFiles`). -/

/-- The `File` fields consulted by the output-side operations. `fake`
models the `fakeSymbol` marker and `aliasId` holds `alias.absModuleId`
when an alias record exists. -/
structure OFile where
  absModuleId : Option Str := none
  fake : Bool := false
  hasErrors : Bool := false
  lazy : Bool := false
  imported : ImportedStatus := .off
  aliasId : Option (Option Str) := none
deriving DecidableEq, Repr

/-- `alignImportedStatuses(...files)`: set every file's `imported` to the
maximum status across the list. -/
def alignImportedStatuses (files : List OFile) : List OFile :=
  files.map (fun f => { f with imported := maxImported (files.map (fun g => g.imported)) })

/-- Update the file at one index of the output array. -/
def updFile (fs : List OFile) (i : Nat) (h : OFile → OFile) : List OFile :=
  match fs[i]? with
  | some f => fs.set i (h f)
  | none => fs

/-- The `imported` status of the file at an index (`false` when absent). -/
def statusAtO (fs : List OFile) (i : Nat) : ImportedStatus :=
  ((fs[i]?).map (fun f => f.imported)).getD .off

/-- The `absModuleId` of the file at an index. -/
def absIdAt (fs : List OFile) (i : Nat) : Option Str :=
  (fs[i]?).bind (fun f => f.absModuleId)

/-- The `alias.absModuleId` of the file at an index (`none` when the file
has no alias record). -/
def aliasAt (fs : List OFile) (i : Nat) : Option (Option Str) :=
  (fs[i]?).bind (fun f => f.aliasId)

/-- `alignImportedStatuses` applied to a group of indices of the output
array: every file of the group is set to the group's maximum status. -/
def alignIndices (fs : List OFile) (g : List Nat) : List OFile :=
  let m := maxImported (g.map (statusAtO fs))
  g.foldl (fun acc i => updFile acc i (fun f => { f with imported := m })) fs

/-- `file.absModuleId && file.absModuleId.startsWith("/node_modules/")`. -/
def containerPred (fs : List OFile) (i : Nat) : Bool :=
  match absIdAt fs i with
  | some s => (strL "/node_modules/").isPrefixOf s
  | none => false

/-- The container of a realpath group: the first file of the group whose
`absModuleId` starts with `/node_modules/`, or the first file if none
does. -/
def pickContainer (fs : List OFile) (g : List Nat) : Nat :=
  match g.find? (containerPred fs) with
  | some i => i
  | none => g.headD 0

/-- Process one realpath group of `mergeFilesWithSameRealPath`: with two
or more members, align the imported statuses, pick the container, and
point every other member's `alias.absModuleId` at the container's
`absModuleId`. -/
def mergeGroup (fs : List OFile) (g : List Nat) : List OFile :=
  if g.length < 2 then fs
  else
    g.foldl (fun acc i =>
      if i = pickContainer (alignIndices fs g) g then acc
      else updFile acc i (fun f =>
        { f with aliasId := some (absIdAt (alignIndices fs g)
            (pickContainer (alignIndices fs g) g)) }))
      (alignIndices fs g)

/-- The scanner state consulted by finalization: the output array and the
realpath index. -/
structure OutState where
  outputFiles : List OFile := []
  realPathToFiles : List (Str × List Nat) := []
deriving DecidableEq, Repr

/-- `mergeFilesWithSameRealPath()`: process every realpath group. -/
def mergeFilesWithSameRealPath (st : OutState) : OutState :=
  { st with outputFiles :=
      st.realPathToFiles.foldl (fun fs p => mergeGroup fs p.2) st.outputFiles }

/-- JavaScript truthiness of `file.absModuleId` (absent and the empty
string are falsy). -/
def truthyId : Option Str → Bool
  | some s => !s.isEmpty
  | none => false

/-- `getOutputFiles()`: collapse realpath duplicates, then keep the files
that are installable, not fake, not errored, and either eager or
reached by an import. -/
def getOutputFiles (st : OutState) : List OFile :=
  (mergeFilesWithSameRealPath st).outputFiles.filter (fun f =>
    truthyId f.absModuleId && !f.fake && !f.hasErrors &&
      (!f.lazy || decide (f.imported ≠ ImportedStatus.off)))

/-- C3: imported statuses are monotone: `setImportedStatus` never lowers a
file's status under the order `false < "dynamic" < "static"` and changes
it only to a strictly higher one, and `alignImportedStatuses` sets every
file of its argument list to the maximum status among them (which is at
least each file's previous status). -/
theorem c3_imported_monotonic :
    (∀ cur status, statusIndex cur ≤ statusIndex (setImportedStatus cur status)) ∧
    (∀ cur status, setImportedStatus cur status = cur ∨
      (statusIndex cur < statusIndex status ∧ setImportedStatus cur status = status)) ∧
    (∀ files : List OFile, (alignImportedStatuses files).map (fun f => f.imported) =
      files.map (fun _ => maxImported (files.map (fun f => f.imported)))) ∧
    (∀ files : List OFile, ∀ f ∈ files,
      statusIndex f.imported ≤ statusIndex (maxImported (files.map (fun g => g.imported)))) := by
  refine ⟨?_, ?_, ?_, ?_⟩
  · intro cur status
    cases cur <;> cases status <;> decide
  · intro cur status
    cases cur <;> cases status <;> first
      | exact Or.inl rfl
      | exact Or.inr (by constructor <;> decide)
  · intro files
    simp only [alignImportedStatuses, List.map_map]
    rfl
  · intro files f hf
    exact statusIndex_maxImported_ge _ (List.mem_map_of_mem _ hf)

/-- C3, witness: the monotonicity statements evaluated at concrete
statuses and a concrete file list. -/
theorem c3_witness :
    statusIndex .dyn ≤ statusIndex (setImportedStatus .dyn .stat) ∧
    (setImportedStatus .stat .dyn = .stat ∨
      (statusIndex .stat < statusIndex .dyn ∧ setImportedStatus .stat .dyn = .dyn)) ∧
    statusIndex ({ imported := .dyn } : OFile).imported ≤
      statusIndex (maxImported (([{ imported := .dyn }, { imported := .stat }] :
        List OFile).map (fun g => g.imported))) :=
  ⟨c3_imported_monotonic.1 .dyn .stat,
   c3_imported_monotonic.2.1 .stat .dyn,
   c3_imported_monotonic.2.2.2 _ _ (by decide)⟩

theorem updFile_length (fs : List OFile) (i : Nat) (h : OFile → OFile) :
    (updFile fs i h).length = fs.length := by
  unfold updFile
  cases fs[i]? <;> simp

theorem updFile_get_ne (fs : List OFile) (i : Nat) (h : OFile → OFile) (j : Nat)
    (hne : i ≠ j) : (updFile fs i h)[j]? = fs[j]? := by
  unfold updFile
  cases fs[i]? <;> simp [List.getElem?_set_ne hne]

theorem updFile_get_self (fs : List OFile) (i : Nat) (h : OFile → OFile) :
    (updFile fs i h)[i]? = (fs[i]?).map h := by
  unfold updFile
  cases hfs : fs[i]? with
  | none => simp [hfs]
  | some f =>
    have hlt : i < fs.length := by
      by_contra hge
      rw [List.getElem?_eq_none (by omega)] at hfs
      cases hfs
    simp [List.getElem?_set_eq_of_lt _ hlt]

theorem alignFold_length (g : List Nat) (fs : List OFile) (m : ImportedStatus) :
    (g.foldl (fun acc i => updFile acc i (fun f => { f with imported := m })) fs).length
      = fs.length := by
  induction g generalizing fs with
  | nil => rfl
  | cons i rest ih =>
    simp only [List.foldl_cons]
    rw [ih, updFile_length]

theorem alignFold_get_not_mem (g : List Nat) (fs : List OFile) (m : ImportedStatus)
    (j : Nat) (hj : j ∉ g) :
    (g.foldl (fun acc i => updFile acc i (fun f => { f with imported := m })) fs)[j]?
      = fs[j]? := by
  induction g generalizing fs with
  | nil => rfl
  | cons i rest ih =>
    simp only [List.foldl_cons]
    rw [ih _ (fun hm => hj (List.mem_cons_of_mem _ hm)),
        updFile_get_ne _ _ _ _ (fun he => hj (by rw [← he]; exact List.mem_cons_self i rest))]

theorem alignFold_get_mem (g : List Nat) (fs : List OFile) (m : ImportedStatus)
    (j : Nat) (hj : j ∈ g) :
    (g.foldl (fun acc i => updFile acc i (fun f => { f with imported := m })) fs)[j]?
      = (fs[j]?).map (fun f => { f with imported := m }) := by
  induction g generalizing fs with
  | nil => cases hj
  | cons i rest ih =>
    simp only [List.foldl_cons]
    by_cases hjr : j ∈ rest
    · rw [ih _ hjr]
      by_cases hij : i = j
      · subst hij
        rw [updFile_get_self]
        cases fs[i]? <;> rfl
      · rw [updFile_get_ne _ _ _ _ hij]
    · have hij : i = j := by
        rcases List.mem_cons.mp hj with h | h
        · exact h.symm
        · exact absurd h hjr
      subst hij
      rw [alignFold_get_not_mem _ _ _ _ hjr, updFile_get_self]

theorem aliasFold_length (g : List Nat) (fs : List OFile) (c : Nat) (cid : Option Str) :
    (g.foldl (fun acc i => if i = c then acc
      else updFile acc i (fun f => { f with aliasId := some cid })) fs).length
      = fs.length := by
  induction g generalizing fs with
  | nil => rfl
  | cons i rest ih =>
    simp only [List.foldl_cons]
    by_cases hic : i = c
    · rw [if_pos hic, ih]
    · rw [if_neg hic, ih, updFile_length]

theorem aliasFold_get_not_mem (g : List Nat) (fs : List OFile) (c : Nat)
    (cid : Option Str) (j : Nat) (hj : j ∉ g) :
    (g.foldl (fun acc i => if i = c then acc
      else updFile acc i (fun f => { f with aliasId := some cid })) fs)[j]?
      = fs[j]? := by
  induction g generalizing fs with
  | nil => rfl
  | cons i rest ih =>
    simp only [List.foldl_cons]
    have hir : j ∉ rest := fun hm => hj (List.mem_cons_of_mem _ hm)
    have hij : i ≠ j := fun he => hj (by rw [← he]; exact List.mem_cons_self i rest)
    by_cases hic : i = c
    · rw [if_pos hic, ih _ hir]
    · rw [if_neg hic, ih _ hir, updFile_get_ne _ _ _ _ hij]

theorem aliasFold_get_container (g : List Nat) (fs : List OFile) (c : Nat)
    (cid : Option Str) :
    (g.foldl (fun acc i => if i = c then acc
      else updFile acc i (fun f => { f with aliasId := some cid })) fs)[c]?
      = fs[c]? := by
  induction g generalizing fs with
  | nil => rfl
  | cons i rest ih =>
    simp only [List.foldl_cons]
    by_cases hic : i = c
    · rw [if_pos hic, ih]
    · rw [if_neg hic, ih, updFile_get_ne _ _ _ _ hic]

theorem aliasFold_get_mem (g : List Nat) (fs : List OFile) (c : Nat)
    (cid : Option Str) (j : Nat) (hj : j ∈ g) (hjc : j ≠ c) :
    (g.foldl (fun acc i => if i = c then acc
      else updFile acc i (fun f => { f with aliasId := some cid })) fs)[j]?
      = (fs[j]?).map (fun f => { f with aliasId := some cid }) := by
  induction g generalizing fs with
  | nil => cases hj
  | cons i rest ih =>
    simp only [List.foldl_cons]
    by_cases hjr : j ∈ rest
    · rw [ih _ hjr]
      by_cases hic : i = c
      · rw [if_pos hic]
      · rw [if_neg hic]
        by_cases hij : i = j
        · subst hij
          rw [updFile_get_self]
          cases fs[i]? <;> rfl
        · rw [updFile_get_ne _ _ _ _ hij]
    · have hij : i = j := by
        rcases List.mem_cons.mp hj with h | h
        · exact h.symm
        · exact absurd h hjr
      subst hij
      rw [if_neg hjc, aliasFold_get_not_mem _ _ _ _ _ hjr, updFile_get_self]

theorem find?_congr_mem {p q : Nat → Bool} (l : List Nat) (h : ∀ a ∈ l, p a = q a) :
    l.find? p = l.find? q := by
  induction l with
  | nil => rfl
  | cons x xs ih =>
    have hx := h x (List.mem_cons_self x xs)
    by_cases hp : p x = true
    · rw [List.find?_cons_of_pos _ hp, List.find?_cons_of_pos _ (hx ▸ hp)]
    · rw [Bool.not_eq_true] at hp
      rw [List.find?_cons_of_neg _ (by simp [hp]),
          List.find?_cons_of_neg _ (by simp [← hx, hp])]
      exact ih (fun a ha => h a (List.mem_cons_of_mem _ ha))

theorem pickContainer_congr (fs1 fs2 : List OFile) (g : List Nat)
    (h : ∀ i ∈ g, absIdAt fs1 i = absIdAt fs2 i) :
    pickContainer fs1 g = pickContainer fs2 g := by
  unfold pickContainer
  have hfind : g.find? (containerPred fs1) = g.find? (containerPred fs2) := by
    apply find?_congr_mem
    intro a ha
    unfold containerPred
    rw [h a ha]
  rw [hfind]

theorem pickContainer_mem (fs : List OFile) (g : List Nat) (hg : g ≠ []) :
    pickContainer fs g ∈ g := by
  unfold pickContainer
  cases hf : g.find? (containerPred fs) with
  | some i => exact List.mem_of_find?_eq_some hf
  | none =>
    match g, hg with
    | x :: xs, _ => exact List.mem_cons_self x xs

theorem alignIndices_length (fs : List OFile) (g : List Nat) :
    (alignIndices fs g).length = fs.length := by
  unfold alignIndices
  exact alignFold_length g fs _

theorem alignIndices_get_mem (fs : List OFile) (g : List Nat) (j : Nat) (hj : j ∈ g) :
    (alignIndices fs g)[j]? =
      (fs[j]?).map (fun f => { f with imported := maxImported (g.map (statusAtO fs)) }) :=
  alignFold_get_mem g fs _ j hj

theorem alignIndices_get_not_mem (fs : List OFile) (g : List Nat) (j : Nat) (hj : j ∉ g) :
    (alignIndices fs g)[j]? = fs[j]? :=
  alignFold_get_not_mem g fs _ j hj

theorem alignIndices_absId (fs : List OFile) (g : List Nat) (j : Nat) :
    absIdAt (alignIndices fs g) j = absIdAt fs j := by
  by_cases hj : j ∈ g
  · unfold absIdAt
    rw [alignIndices_get_mem fs g j hj]
    cases fs[j]? <;> rfl
  · unfold absIdAt
    rw [alignIndices_get_not_mem fs g j hj]

theorem mergeGroup_length (fs : List OFile) (g : List Nat) :
    (mergeGroup fs g).length = fs.length := by
  unfold mergeGroup
  by_cases hl : g.length < 2
  · rw [if_pos hl]
  · rw [if_neg hl]
    rw [aliasFold_length, alignIndices_length]

theorem mergeGroup_get_not_mem (fs : List OFile) (g : List Nat) (j : Nat) (hj : j ∉ g) :
    (mergeGroup fs g)[j]? = fs[j]? := by
  unfold mergeGroup
  by_cases hl : g.length < 2
  · rw [if_pos hl]
  · rw [if_neg hl]
    rw [aliasFold_get_not_mem _ _ _ _ _ hj, alignIndices_get_not_mem fs g j hj]

theorem mergeGroup_absId (fs : List OFile) (g : List Nat) (j : Nat) :
    absIdAt (mergeGroup fs g) j = absIdAt fs j := by
  unfold mergeGroup
  by_cases hl : g.length < 2
  · rw [if_pos hl]
  · rw [if_neg hl]
    have hrest : ∀ k, absIdAt (alignIndices fs g) k = absIdAt fs k :=
      alignIndices_absId fs g
    by_cases hj : j ∈ g
    · by_cases hjc : j = pickContainer (alignIndices fs g) g
      · unfold absIdAt
        rw [hjc, aliasFold_get_container]
        exact hrest _
      · unfold absIdAt
        rw [aliasFold_get_mem _ _ _ _ _ hj hjc]
        have := hrest j
        unfold absIdAt at this
        rw [← this]
        cases (alignIndices fs g)[j]? <;> rfl
    · unfold absIdAt
      rw [aliasFold_get_not_mem _ _ _ _ _ hj]
      exact hrest _

theorem aliasFold_status (g : List Nat) (fs : List OFile) (c : Nat)
    (cid : Option Str) (j : Nat) :
    statusAtO (g.foldl (fun acc i => if i = c then acc
      else updFile acc i (fun f => { f with aliasId := some cid })) fs) j
      = statusAtO fs j := by
  by_cases hjc : j = c
  · unfold statusAtO
    rw [hjc, aliasFold_get_container]
  · by_cases hj : j ∈ g
    · unfold statusAtO
      rw [aliasFold_get_mem _ _ _ _ _ hj hjc]
      cases fs[j]? <;> rfl
    · unfold statusAtO
      rw [aliasFold_get_not_mem _ _ _ _ _ hj]

theorem mergeGroup_status_mem (fs : List OFile) (g : List Nat)
    (hlen : 2 ≤ g.length) (j : Nat) (hj : j ∈ g) (hjv : j < fs.length) :
    statusAtO (mergeGroup fs g) j = maxImported (g.map (statusAtO fs)) := by
  unfold mergeGroup
  rw [if_neg (by omega)]
  rw [aliasFold_status]
  unfold statusAtO
  rw [alignIndices_get_mem fs g j hj, List.getElem?_eq_getElem hjv]
  rfl

theorem mergeGroup_alias_mem (fs : List OFile) (g : List Nat)
    (hlen : 2 ≤ g.length) (j : Nat) (hj : j ∈ g)
    (hjc : j ≠ pickContainer fs g) (hjv : j < fs.length) :
    aliasAt (mergeGroup fs g) j = some (absIdAt fs (pickContainer fs g)) := by
  unfold mergeGroup
  rw [if_neg (by omega)]
  have hpick : pickContainer (alignIndices fs g) g = pickContainer fs g :=
    pickContainer_congr _ _ g (fun i _ => alignIndices_absId fs g i)
  rw [hpick]
  unfold aliasAt
  rw [aliasFold_get_mem _ _ _ _ _ hj hjc, alignIndices_get_mem fs g j hj,
      List.getElem?_eq_getElem hjv, alignIndices_absId fs g]
  rfl

theorem groupsFold_length (gs : List (Str × List Nat)) (fs : List OFile) :
    (gs.foldl (fun a p => mergeGroup a p.2) fs).length = fs.length := by
  induction gs generalizing fs with
  | nil => rfl
  | cons p rest ih =>
    simp only [List.foldl_cons]
    rw [ih, mergeGroup_length]

theorem groupsFold_frame (gs : List (Str × List Nat)) (fs : List OFile) (j : Nat)
    (hj : ∀ p ∈ gs, j ∉ p.2) :
    (gs.foldl (fun a p => mergeGroup a p.2) fs)[j]? = fs[j]? := by
  induction gs generalizing fs with
  | nil => rfl
  | cons p rest ih =>
    simp only [List.foldl_cons]
    rw [ih _ (fun q hq => hj q (List.mem_cons_of_mem _ hq)),
        mergeGroup_get_not_mem _ _ _ (hj p (List.mem_cons_self p rest))]

theorem groupsFold_absId (gs : List (Str × List Nat)) (fs : List OFile) (j : Nat) :
    absIdAt (gs.foldl (fun a p => mergeGroup a p.2) fs) j = absIdAt fs j := by
  induction gs generalizing fs with
  | nil => rfl
  | cons p rest ih =>
    simp only [List.foldl_cons]
    rw [ih, mergeGroup_absId]

/-- C5: on finalization, for every realpath group of two or more files
(whose index sets are disjoint, as each file object is indexed under one
realpath), every member's `imported` status becomes the group's maximum,
every non-container member's `alias.absModuleId` becomes the container's
`absModuleId`, and the container is the first member whose `absModuleId`
starts with `/node_modules/`, or the first member if none does. -/
theorem c5_merge_realpath_groups (st : OutState) (rp : Str) (g : List Nat)
    (hmem : (rp, g) ∈ st.realPathToFiles)
    (hpair : st.realPathToFiles.Pairwise (fun a b => ∀ i ∈ a.2, i ∉ b.2))
    (hvalid : ∀ i ∈ g, i < st.outputFiles.length)
    (hlen : 2 ≤ g.length) :
    (∀ i ∈ g, statusAtO (mergeFilesWithSameRealPath st).outputFiles i =
      maxImported (g.map (statusAtO st.outputFiles))) ∧
    (∀ i ∈ g, i ≠ pickContainer st.outputFiles g →
      aliasAt (mergeFilesWithSameRealPath st).outputFiles i =
        some (absIdAt st.outputFiles (pickContainer st.outputFiles g))) ∧
    pickContainer st.outputFiles g =
      (g.find? (containerPred st.outputFiles)).getD (g.headD 0) := by
  obtain ⟨pre, post, hsplit⟩ := List.append_of_mem hmem
  have hfold : (mergeFilesWithSameRealPath st).outputFiles =
      post.foldl (fun a p => mergeGroup a p.2)
        (mergeGroup (pre.foldl (fun a p => mergeGroup a p.2) st.outputFiles) g) := by
    unfold mergeFilesWithSameRealPath
    rw [hsplit]
    simp only [List.foldl_append, List.foldl_cons]
  rw [hsplit] at hpair
  rw [List.pairwise_append] at hpair
  obtain ⟨hp1, hp2, hp12⟩ := hpair
  rw [List.pairwise_cons] at hp2
  obtain ⟨hpost, hp2rest⟩ := hp2
  have hpre : ∀ p ∈ pre, ∀ i ∈ p.2, i ∉ g :=
    fun p hp => hp12 p hp (rp, g) (List.mem_cons_self _ _)
  have hPreGet : ∀ j ∈ g,
      (pre.foldl (fun a p => mergeGroup a p.2) st.outputFiles)[j]?
        = st.outputFiles[j]? :=
    fun j hj => groupsFold_frame pre _ j (fun p hp hjmem => hpre p hp j hjmem hj)
  have hstat : ∀ j ∈ g,
      statusAtO (pre.foldl (fun a p => mergeGroup a p.2) st.outputFiles) j
        = statusAtO st.outputFiles j := by
    intro j hj
    unfold statusAtO
    rw [hPreGet j hj]
  have habs : ∀ j ∈ g,
      absIdAt (pre.foldl (fun a p => mergeGroup a p.2) st.outputFiles) j
        = absIdAt st.outputFiles j := by
    intro j hj
    unfold absIdAt
    rw [hPreGet j hj]
  have hmax : g.map (statusAtO (pre.foldl (fun a p => mergeGroup a p.2) st.outputFiles))
      = g.map (statusAtO st.outputFiles) := List.map_congr_left hstat
  have hpickPre :
      pickContainer (pre.foldl (fun a p => mergeGroup a p.2) st.outputFiles) g
        = pickContainer st.outputFiles g := pickContainer_congr _ _ g habs
  have hlenPre : (pre.foldl (fun a p => mergeGroup a p.2) st.outputFiles).length
      = st.outputFiles.length := groupsFold_length pre st.outputFiles
  have hvalidPre : ∀ i ∈ g,
      i < (pre.foldl (fun a p => mergeGroup a p.2) st.outputFiles).length :=
    fun i hi => hlenPre ▸ hvalid i hi
  have hPost : ∀ j ∈ g, ((mergeFilesWithSameRealPath st).outputFiles)[j]?
      = (mergeGroup (pre.foldl (fun a p => mergeGroup a p.2) st.outputFiles) g)[j]? := by
    intro j hj
    rw [hfold]
    exact groupsFold_frame post _ j (fun p hp => hpost p hp j hj)
  have hgne : g ≠ [] := by
    intro he
    rw [he] at hlen
    simp at hlen
  refine ⟨?_, ?_, ?_⟩
  · intro i hi
    have hred : statusAtO (mergeFilesWithSameRealPath st).outputFiles i
        = statusAtO (mergeGroup (pre.foldl (fun a p => mergeGroup a p.2) st.outputFiles) g) i := by
      unfold statusAtO
      rw [hPost i hi]
    rw [hred, mergeGroup_status_mem _ g hlen i hi (hvalidPre i hi), hmax]
  · intro i hi hic
    have hred : aliasAt (mergeFilesWithSameRealPath st).outputFiles i
        = aliasAt (mergeGroup (pre.foldl (fun a p => mergeGroup a p.2) st.outputFiles) g) i := by
      unfold aliasAt
      rw [hPost i hi]
    rw [hred, mergeGroup_alias_mem _ g hlen i hi (by rw [hpickPre]; exact hic)
      (hvalidPre i hi), hpickPre,
      habs (pickContainer st.outputFiles g) (pickContainer_mem st.outputFiles g hgne)]
  · unfold pickContainer
    cases g.find? (containerPred st.outputFiles) <;> rfl

theorem prefix_slash_nonempty (s : Str) (h : (strL "/").isPrefixOf s = true) :
    s.isEmpty = false := by
  cases s with
  | nil => simp [strL, List.isPrefixOf] at h
  | cons c rest => rfl

/-- C1: under the module-id invariant (every stored `absModuleId` begins
with `/`), a file belongs to the list returned by `getOutputFiles()` if
and only if it is one of the (realpath-collapsed) output files, its
`absModuleId` is set and starts with `/`, it does not carry the fake
marker, it is not errored, and it is eager or imported. -/
theorem c1_getOutputFiles_filter (st : OutState)
    (hids : ∀ f ∈ st.outputFiles, ∀ s, f.absModuleId = some s →
      (strL "/").isPrefixOf s = true) :
    ∀ f, f ∈ getOutputFiles st ↔
      (f ∈ (mergeFilesWithSameRealPath st).outputFiles ∧
       (∃ s, f.absModuleId = some s ∧ (strL "/").isPrefixOf s = true) ∧
       f.fake = false ∧ f.hasErrors = false ∧
       (f.lazy = true → f.imported ≠ ImportedStatus.off)) := by
  have htrans : ∀ f2 ∈ (mergeFilesWithSameRealPath st).outputFiles, ∀ s,
      f2.absModuleId = some s → (strL "/").isPrefixOf s = true := by
    intro f2 hf2 s hs
    obtain ⟨j, hj⟩ := List.mem_iff_getElem?.mp hf2
    have habs := groupsFold_absId st.realPathToFiles st.outputFiles j
    have h1 : absIdAt (mergeFilesWithSameRealPath st).outputFiles j = some s := by
      unfold absIdAt
      rw [hj]
      exact hs
    have h2 : absIdAt st.outputFiles j = some s := by
      rw [← habs]
      exact h1
    unfold absIdAt at h2
    cases hj0 : st.outputFiles[j]? with
    | none => rw [hj0] at h2; cases h2
    | some f0 =>
      rw [hj0] at h2
      exact hids f0 (List.mem_iff_getElem?.mpr ⟨j, hj0⟩) s h2
  intro f
  unfold getOutputFiles
  rw [List.mem_filter]
  constructor
  · rintro ⟨hmem2, hpred⟩
    simp only [Bool.and_eq_true, Bool.or_eq_true, Bool.not_eq_true',
      decide_eq_true_eq] at hpred
    obtain ⟨⟨⟨hid, hfake⟩, herr⟩, hlz⟩ := hpred
    refine ⟨hmem2, ?_, hfake, herr, ?_⟩
    · cases hai : f.absModuleId with
      | none => rw [hai] at hid; cases hid
      | some s => exact ⟨s, rfl, htrans f hmem2 s hai⟩
    · intro hlazy
      rcases hlz with hl | hr
      · rw [hlazy] at hl; cases hl
      · exact hr
  · rintro ⟨hmem2, ⟨s, hs, hpre⟩, hfake, herr, hlazy⟩
    refine ⟨hmem2, ?_⟩
    simp only [Bool.and_eq_true, Bool.or_eq_true, Bool.not_eq_true',
      decide_eq_true_eq]
    refine ⟨⟨⟨?_, hfake⟩, herr⟩, ?_⟩
    · rw [hs]
      show (!s.isEmpty) = true
      rw [prefix_slash_nonempty s hpre]
      rfl
    · by_cases hl : f.lazy = true
      · exact Or.inr (hlazy hl)
      · exact Or.inl (by rw [Bool.not_eq_true] at hl; exact hl)

/-- An eager installable output file. -/
def outA : OFile := { absModuleId := some (strL "/a.js"), lazy := false }

/-- A lazy output file that was never imported. -/
def outB : OFile := { absModuleId := some (strL "/b.js"), lazy := true }

/-- A lazy output file imported dynamically. -/
def outC : OFile :=
  { absModuleId := some (strL "/node_modules/x/c.js"), lazy := true, imported := .dyn }

/-- A concrete scanner output state with no realpath duplicates. -/
def stOut : OutState := { outputFiles := [outA, outB, outC], realPathToFiles := [] }

/-- C1, witness: the emitted-set characterization evaluated at the eager
file of a concrete state. -/
theorem c1_witness :
    outA ∈ getOutputFiles stOut ↔
      (outA ∈ (mergeFilesWithSameRealPath stOut).outputFiles ∧
       (∃ s, outA.absModuleId = some s ∧ (strL "/").isPrefixOf s = true) ∧
       outA.fake = false ∧ outA.hasErrors = false ∧
       (outA.lazy = true → outA.imported ≠ ImportedStatus.off)) :=
  c1_getOutputFiles_filter stOut
    (by
      intro f hf s hs
      have hor : f = outA ∨ f = outB ∨ f = outC := by simpa [stOut] using hf
      rcases hor with h | h | h <;> subst h <;>
        simp only [outA, outB, outC, Option.some.injEq] at hs <;>
        subst hs <;> decide)
    outA

/-- A lazy application-side copy of a module, statically imported. -/
def mA : OFile :=
  { absModuleId := some (strL "/app/x.js"), lazy := true, imported := .stat }

/-- The node_modules copy of the same physical file, not yet imported. -/
def mB : OFile :=
  { absModuleId := some (strL "/node_modules/x/index.js"), lazy := true }

/-- A state with one realpath group holding both copies. -/
def stMerge : OutState :=
  { outputFiles := [mA, mB], realPathToFiles := [(strL "p", [0, 1])] }

/-- C5, witness: the group statement evaluated on a two-member group
whose container is the node_modules member. -/
theorem c5_witness :
    statusAtO (mergeFilesWithSameRealPath stMerge).outputFiles 0 =
      maxImported ([0, 1].map (statusAtO stMerge.outputFiles)) ∧
    aliasAt (mergeFilesWithSameRealPath stMerge).outputFiles 0 =
      some (absIdAt stMerge.outputFiles (pickContainer stMerge.outputFiles [0, 1])) :=
  ⟨(c5_merge_realpath_groups stMerge (strL "p") [0, 1] (by decide)
      (by simp [stMerge]) (by decide) (by decide)).1 0 (by decide),
   (c5_merge_realpath_groups stMerge (strL "p") [0, 1] (by decide)
      (by simp [stMerge]) (by decide) (by decide)).2.1 0 (by decide) (by decide)⟩

/-! ## Missing-module bookkeeping, the dependency walk and re-entry

Model of `ImportScanner.mergeMissing`, `onMissing`, `resolve` (its
missing branch), `scanFile`, `scanImports` and `scanMissingModules`.
The resolver and the file-reading layer are consumed interfaces; they are
abstracted as an environment mapping each import specifier to the index
of the file it resolves to, with every resolvable file pre-loaded in the
state exactly as `readDepFile` would produce it (`lazy`, not imported,
with its `deps` already extracted). -/

/-- The per-edge `ImportInfo` record. -/
structure ImportInfo where
  parentPath : Option Str := none
  dynamic : Bool := false
  parentWasDynamic : Bool := false
  possiblySpurious : Bool := false
  helpers : List (Str × Bool) := []
  packageName : Str := []
  bundleArch : Str := []
deriving DecidableEq, Repr

/-- A map from import specifiers to `ImportInfo` lists (a JavaScript
object, keys in insertion order). -/
abbrev MissingMap := List (Str × List ImportInfo)

/-- JavaScript object keys are strings, so a non-string `parentPath` used
as a key of `pathToIndex` is coerced to the string `"undefined"`. -/
def parentPathKey (pp : Option Str) : Str :=
  match pp with
  | some p => p
  | none => strL "undefined"

/-- The `pathToIndex` lookup of `mergeMissing`: the loop writes ascending
indices under each entry's `parentPath` key, so the last write wins and a
lookup returns the greatest index whose key matches. -/
def pathToIndexOf : List ImportInfo → Str → Option Nat
  | [], _ => none
  | o :: rest, p =>
    match pathToIndexOf rest p with
    | some i => some (i + 1)
    | none => if parentPathKey o.parentPath = p then some 0 else none

/-- The inner loop of `mergeMissing` for one specifier: entries with a
string `parentPath` found in `pathToIndex` replace the entry at that
index in place; all other entries are pushed. -/
def mergeOne (orig src : List ImportInfo) : List ImportInfo :=
  src.foldl (fun cur info =>
    match info.parentPath with
    | some p =>
      match pathToIndexOf orig p with
      | some index => cur.set index info
      | none => cur ++ [info]
    | none => cur ++ [info]) orig

/-- `ImportScanner.mergeMissing(target, source)`: copy each specifier of
`source` into `target`, concatenating lists and deduplicating by
`parentPath` (a fresh specifier starts from the empty list). -/
def mergeMissing (target source : MissingMap) : MissingMap :=
  source.foldl (fun acc p =>
    assocSet acc p.1 (mergeOne ((assocLookup acc p.1).getD []) p.2)) target

/-- The graph-walk view of a `File`: its status flags, its extracted
dependency edges, and the per-file missing map that `onMissing` fills. -/
structure GFile where
  imported : ImportedStatus := .off
  lazy : Bool := true
  pendingErrors : Nat := 0
  hasErrors : Bool := false
  deps : List (Str × ImportInfo) := []
  missingModules : List (Str × ImportInfo) := []
  sourcePath : Str := []
  isFake : Bool := false
deriving DecidableEq, Repr

/-- The scanner state mutated by the walk: the output array and
`allMissingModules`. -/
structure ScanState where
  files : List GFile := []
  allMissingModules : MissingMap := []
deriving DecidableEq, Repr

/-- The environment of a scan: the bundle arch, the scanner name (empty
for an application scan), the source root, the resolver (a consumed
interface: `none` models the `"missing"` outcome) and the set of native
Node built-in identifiers. -/
structure Env where
  bundleArch : Str
  name : Str := []
  sourceRoot : Str := []
  resolveId : Str → Option Nat
  nativeIds : List Str := []

/-- Modelled from the spec: `archMatches` from the arch-info module — an
arch matches a pattern when the pattern is a dotted-component prefix of
the arch. -/
def archMatches (arch pattern : Str) : Bool :=
  pattern.isPrefixOf arch &&
    (arch.length = pattern.length || arch[pattern.length]? = some '.')

/-- `isWeb()`: every arch other than `os.*` is a web arch. -/
def isWeb (env : Env) : Bool := !(archMatches env.bundleArch (strL "os"))

/-- `isWebBrowser()`. -/
def isWebBrowser (env : Env) : Bool := archMatches env.bundleArch (strL "web.browser")

/-- Modelled from the spec: `Resolver.isNative(id)` — membership in the
set of native Node built-in module identifiers. -/
def isNative (env : Env) (id : Str) : Bool := env.nativeIds.contains id

/-- Modelled from the spec: `Resolver.getNativeStubId(id)` returns the
identifier of the `meteor-node-stubs` replacement module. -/
def getNativeStubId (id : Str) : Str :=
  strL "meteor-node-stubs/deps/" ++ id ++ strL ".js"

/-- The per-edge dynamic flag computed in `scanFile`. -/
def edgeDynamic (env : Env) (forDynamicImport : Bool) (info : ImportInfo) : Bool :=
  isWebBrowser env && (forDynamicImport || info.parentWasDynamic || info.dynamic)

/-- Write the (possibly updated) parent file back into the output array;
fake parents are not in the array (`pidx = none`), so their mutations are
discarded when the call returns, as in the source. -/
def putFile (st : ScanState) (pidx : Option Nat) (f : GFile) : ScanState :=
  match pidx with
  | some i => { st with files := st.files.set i f }
  | none => st

/-- `pathJoin` specialized to joining the source root with a relative
source path. -/
def pathJoinM (a b : Str) : Str := a ++ strL "/" ++ b

/-- Update the value stored under a key, leaving the map unchanged when
the key is absent (the scanner only calls this for keys it knows are
present). -/
def assocUpdate {β : Type} (l : List (Str × β)) (k : Str) (f : β → β) :
    List (Str × β) :=
  match l with
  | [] => []
  | (k0, v0) :: rest =>
    if k0 = k then (k0, f v0) :: rest else (k0, v0) :: assocUpdate rest k f

/-- Record a native stub as an implicit helper on the importing edge:
`info.helpers[stubId] = forDynamicImport` on `parentFile.deps[id]`. -/
def addHelper (parent : GFile) (id stubId : Str) (forDyn : Bool) : GFile :=
  { parent with
    deps := assocUpdate parent.deps id
      (fun di => { di with helpers := assocSet di.helpers stubId forDyn }) }

/-- The `ImportInfo` recorded for an unresolved specifier by `onMissing`:
`possiblySpurious` and `dynamic` are copied from the parent's edge when
the parent knows the specifier. -/
def missingInfoFor (env : Env) (parent : GFile) (id : Str) (forDyn : Bool) :
    ImportInfo :=
  let base : ImportInfo :=
    { packageName := env.name,
      parentPath := some (pathJoinM env.sourceRoot parent.sourcePath),
      bundleArch := env.bundleArch,
      possiblySpurious := false,
      dynamic := false,
      parentWasDynamic := forDyn }
  match assocLookup parent.deps id with
  | some di => { base with possiblySpurious := di.possiblySpurious, dynamic := di.dynamic }
  | none => base

/-- The recording tail of `onMissing`: build the `ImportInfo`, store it in
`parentFile.missingModules`, and merge `{ [id]: [info] }` into
`allMissingModules`. -/
def onMissingRecord (env : Env) (st : ScanState) (parent : GFile)
    (pidx : Option Nat) (id : Str) (forDyn : Bool) : Option Nat × ScanState :=
  let info := missingInfoFor env parent id forDyn
  let parent2 := { parent with missingModules := assocSet parent.missingModules id info }
  let st2 := putFile st pidx parent2
  (none, { st2 with allMissingModules := mergeMissing st2.allMissingModules [(id, [info])] })

mutual

/-- `resolve(parentFile, id, forDynamicImport)`: consult the resolver and
fall into `onMissing` when it reports a miss.  (The `packageJsonMap` and
alias bookkeeping of resolved hits is outside the scope of the modelled
claims; a hit simply yields the index of the resolved file.)  The fuel
argument bounds the `onMissing`/`resolve` recursion through native stub
rewriting and only ever matters when it runs out. -/
def resolveM : Nat → Env → ScanState → GFile → Option Nat → Str → Bool →
    Option Nat × ScanState
  | 0, _, st, _, _, _, _ => (none, st)
  | fuel + 1, env, st, parent, pidx, id, forDyn =>
    match env.resolveId id with
    | some j => (some j, st)
    | none => onMissing fuel env st parent pidx id forDyn

/-- `onMissing(parentFile, id, forDynamicImport)`: for an application
scan on a web arch, a native built-in is rewritten to a resolution of its
`meteor-node-stubs/deps/<id>.js` stub (recorded as an implicit helper on
the importing edge); otherwise the miss is recorded on the parent's
`missingModules` and merged into `allMissingModules`. -/
def onMissing : Nat → Env → ScanState → GFile → Option Nat → Str → Bool →
    Option Nat × ScanState
  | 0, _, st, _, _, _, _ => (none, st)
  | fuel + 1, env, st, parent, pidx, id, forDyn =>
    if env.name = [] && isNative env id && isWeb env then
      let stubId := getNativeStubId id
      if stubId ≠ id then
        let parent1 := addHelper parent id stubId forDyn
        resolveM fuel env (putFile st pidx parent1) parent1 pidx stubId forDyn
      else
        onMissingRecord env st parent pidx id forDyn
    else
      onMissingRecord env st parent pidx id forDyn

end


mutual

/-- `scanFile(file, forDynamicImport)` applied to the file at an index of
the output array.  Files already scanned at an equal or stronger status
return immediately; otherwise the status is promoted, pending compiler
errors flush into `hasErrors` and stop the walk, and the dependency edges
are scanned (their extraction, `findImportedModuleIdentifiers`, is a
consumed pure function: `deps` is already present on the modelled files).
Writing the status promotion and the error flag in a single array update
is equivalent to the two consecutive mutations of the source. -/
def scanFile : Nat → Env → ScanState → Nat → Bool → ScanState
  | 0, _, st, _, _ => st
  | fuel + 1, env, st, i, forDyn =>
    match st.files[i]? with
    | none => st
    | some f =>
      if f.imported = .stat then st
      else if forDyn && f.imported = .dyn then st
      else if f.pendingErrors > 0 then
        putFile st (some i)
          { f with imported := setImportedStatus f.imported (if forDyn then .dyn else .stat),
                   hasErrors := true }
      else
        scanDeps fuel env
          (putFile st (some i)
            { f with imported := setImportedStatus f.imported (if forDyn then .dyn else .stat) })
          i f.deps forDyn

/-- The `each(file.deps, ...)` loop of `scanFile`: compute the per-edge
dynamic flag, resolve the specifier (recording misses through
`onMissing`), and recursively scan the resolved file. -/
def scanDeps : Nat → Env → ScanState → Nat → List (Str × ImportInfo) → Bool → ScanState
  | 0, _, st, _, _, _ => st
  | _ + 1, _, st, _, [], _ => st
  | fuel + 1, env, st, i, (id, info) :: rest, forDyn =>
    match st.files[i]? with
    | none => scanDeps fuel env st i rest forDyn
    | some parent =>
      match resolveM fuel env st parent (some i) id (edgeDynamic env forDyn info) with
      | (none, st1) => scanDeps fuel env st1 i rest forDyn
      | (some j, st1) =>
        scanDeps fuel env (scanFile fuel env st1 j (edgeDynamic env forDyn info))
          i rest forDyn

end

/-- `scanImports()`: walk every eager file of the output array
non-dynamically. -/
def scanImports (fuel : Nat) (env : Env) (st : ScanState) : ScanState :=
  (List.range st.files.length).foldl (fun s i =>
    match s.files[i]? with
    | some f => if !f.lazy then scanFile fuel env s i false else s
    | none => s) st

/-- One synthetic scan of `scanMissingModules`: `scanFile` applied to the
fake parent `{ sourcePath: "fake.js", [fakeSymbol]: true, deps: { [id]:
info } }`.  The fake file starts unimported, so the early-return checks
of `scanFile` pass, its own status promotion mutates only the discarded
object, and its single dependency edge is processed exactly as in the
`scanDeps` loop with a parent that lives outside the output array. -/
def scanFakeFile (fuel : Nat) (env : Env) (st : ScanState) (id : Str)
    (info : ImportInfo) (forDyn : Bool) : ScanState :=
  let fake : GFile := { sourcePath := strL "fake.js", deps := [(id, info)], isFake := true }
  match resolveM fuel env st fake none id (edgeDynamic env forDyn info) with
  | (none, st1) => st1
  | (some j, st1) => scanFile fuel env st1 j (edgeDynamic env forDyn info)

/-- `scanMissingModules(missingModules)`: with a nonempty map, swap
`allMissingModules` for a fresh map, drive a fake parent for at most one
static and one dynamic representative `ImportInfo` per specifier, then
compute `newlyAdded` (specifiers that no longer come up missing) and
`newlyMissing` (fresh misses, with previously known ones merged back into
the saved map, which becomes `allMissingModules` again).  Returns
`(newlyAdded, newlyMissing, state)`. -/
def scanMissingModules (fuel : Nat) (env : Env) (st : ScanState)
    (missingModules : MissingMap) : MissingMap × MissingMap × ScanState :=
  if missingModules.isEmpty then ([], [], st)
  else
    let prev := st.allMissingModules
    let st2 := missingModules.foldl (fun s p =>
      let s1 := match p.2.find? (fun i => !(i.parentWasDynamic || i.dynamic)) with
        | some si => scanFakeFile fuel env s p.1 si false
        | none => s
      match p.2.find? (fun i => i.parentWasDynamic || i.dynamic) with
        | some di => scanFakeFile fuel env s1 p.1 di true
        | none => s1) { st with allMissingModules := [] }
    let newlyMissing0 := st2.allMissingModules
    let newlyAdded := missingModules.filter (fun p => !(assocHas newlyMissing0 p.1))
    let final := newlyMissing0.foldl (fun (acc : MissingMap × ScanState) p =>
      if assocHas acc.2.allMissingModules p.1 then acc
      else (acc.1 ++ [p],
        { acc.2 with allMissingModules := mergeMissing acc.2.allMissingModules [p] }))
      ([], { st2 with allMissingModules := prev })
    (newlyAdded, final.1, final.2)

/-- The imported status of the file at an index of the scan state. -/
def statusAt (st : ScanState) (j : Nat) : ImportedStatus :=
  ((st.files[j]?).map (fun f => f.imported)).getD .off

/-- The parent handed to `resolve`/`onMissing` is the live file object at
its index: when the parent is indexed, the stored file has the parent's
imported status. -/
def parentRel (st : ScanState) (pidx : Option Nat) (p : GFile) : Prop :=
  ∀ i, pidx = some i → ∀ f, st.files[i]? = some f → f.imported = p.imported

theorem statusAt_putFile (st : ScanState) (pidx : Option Nat) (p p' : GFile)
    (himp : p'.imported = p.imported) (hrel : parentRel st pidx p) (j : Nat) :
    statusAt (putFile st pidx p') j = statusAt st j := by
  cases pidx with
  | none => rfl
  | some i =>
    unfold putFile statusAt
    by_cases hij : j = i
    · subst hij
      rw [List.getElem?_set_self']
      cases hf : st.files[j]? with
      | none => rfl
      | some f => simp [himp, hrel j rfl f hf]
    · rw [List.getElem?_set_ne (fun he => hij he.symm)]

theorem parentRel_putFile (st : ScanState) (pidx : Option Nat) (q : GFile) :
    parentRel (putFile st pidx q) pidx q := by
  intro i hpi f hf
  cases pidx with
  | none => cases hpi
  | some i0 =>
    cases hpi
    unfold putFile at hf
    rw [List.getElem?_set_self'] at hf
    cases hq : st.files[i]? with
    | none => rw [hq] at hf; cases hf
    | some f0 =>
      rw [hq] at hf
      injection hf with h2
      rw [← h2]
      rfl

theorem resolveOnMissing_statusAt (fuel : Nat) :
    (∀ env st p pidx id forDyn, parentRel st pidx p →
      ∀ j, statusAt (resolveM fuel env st p pidx id forDyn).2 j = statusAt st j) ∧
    (∀ env st p pidx id forDyn, parentRel st pidx p →
      ∀ j, statusAt (onMissing fuel env st p pidx id forDyn).2 j = statusAt st j) := by
  induction fuel with
  | zero =>
    constructor <;> (intro env st p pidx id forDyn hrel j; rfl)
  | succ fuel ih =>
    obtain ⟨ihr, iho⟩ := ih
    have hrec : ∀ env st p pidx id forDyn, parentRel st pidx p →
        ∀ j, statusAt (onMissingRecord env st p pidx id forDyn).2 j = statusAt st j := by
      intro env st p pidx id forDyn hrel j
      unfold onMissingRecord
      exact statusAt_putFile st pidx p
        { p with missingModules :=
            assocSet p.missingModules id (missingInfoFor env p id forDyn) }
        rfl hrel j
    constructor
    · intro env st p pidx id forDyn hrel j
      rw [resolveM]
      cases hres : env.resolveId id with
      | some k => rfl
      | none => exact iho env st p pidx id forDyn hrel j
    · intro env st p pidx id forDyn hrel j
      rw [onMissing]
      by_cases happ : (decide (env.name = []) && isNative env id && isWeb env) = true
      · rw [if_pos happ]
        by_cases hstub : getNativeStubId id ≠ id
        · rw [if_pos hstub]
          have hput : statusAt (putFile st pidx (addHelper p id (getNativeStubId id) forDyn)) j
              = statusAt st j :=
            statusAt_putFile st pidx p (addHelper p id (getNativeStubId id) forDyn) rfl hrel j
          rw [ihr env _ _ pidx (getNativeStubId id) forDyn
            (parentRel_putFile st pidx _) j]
          exact hput
        · rw [if_neg hstub]
          exact hrec env st p pidx id forDyn hrel j
      · rw [if_neg happ]
        exact hrec env st p pidx id forDyn hrel j

theorem setImportedStatus_stat (cur : ImportedStatus) :
    setImportedStatus cur .stat = .stat := by
  cases cur <;> rfl

theorem statusStep_trans {a b c : ImportedStatus}
    (h1 : b = a ∨ b = ImportedStatus.stat) (h2 : c = b ∨ c = ImportedStatus.stat) :
    c = a ∨ c = ImportedStatus.stat := by
  rcases h2 with h | h
  · rcases h1 with h' | h'
    · exact Or.inl (h.trans h')
    · exact Or.inr (h.trans h')
  · exact Or.inr h

theorem statusAt_setFile (st : ScanState) (i : Nat) (f1 : GFile) (j : Nat) :
    statusAt (putFile st (some i) f1) j = statusAt st j ∨
    statusAt (putFile st (some i) f1) j = f1.imported := by
  by_cases hij : j = i
  · subst hij
    unfold putFile statusAt
    rw [List.getElem?_set_self']
    cases st.files[j]? with
    | none => exact Or.inl rfl
    | some f => exact Or.inr rfl
  · left
    unfold putFile statusAt
    rw [List.getElem?_set_ne (fun he => hij he.symm)]

theorem scanWalk_no_dyn (env : Env) (hwb : isWebBrowser env = false) (fuel : Nat) :
    (∀ st i j, statusAt (scanFile fuel env st i false) j = statusAt st j ∨
      statusAt (scanFile fuel env st i false) j = ImportedStatus.stat) ∧
    (∀ st i ds forDyn j, statusAt (scanDeps fuel env st i ds forDyn) j = statusAt st j ∨
      statusAt (scanDeps fuel env st i ds forDyn) j = ImportedStatus.stat) := by
  induction fuel with
  | zero =>
    constructor <;> intros <;> exact Or.inl rfl
  | succ fuel ih =>
    obtain ⟨ihf, ihd⟩ := ih
    have hedge : ∀ forDyn info, edgeDynamic env forDyn info = false := by
      intro forDyn info
      unfold edgeDynamic
      rw [hwb]
      rfl
    constructor
    · intro st i j
      rw [scanFile]
      cases hfi : st.files[i]? with
      | none => exact Or.inl rfl
      | some f =>
        dsimp only
        by_cases h1 : f.imported = ImportedStatus.stat
        · rw [if_pos h1]
          exact Or.inl rfl
        · rw [if_neg h1, if_neg (by simp)]
          by_cases hp : f.pendingErrors > 0
          · rw [if_pos hp]
            rcases statusAt_setFile st i
                { f with imported := setImportedStatus f.imported .stat, hasErrors := true } j
              with h | h
            · exact Or.inl h
            · exact Or.inr (h.trans (setImportedStatus_stat f.imported))
          · rw [if_neg hp]
            refine statusStep_trans ?_ (ihd _ i f.deps false j)
            rcases statusAt_setFile st i
                { f with imported := setImportedStatus f.imported .stat } j with h | h
            · exact Or.inl h
            · exact Or.inr (h.trans (setImportedStatus_stat f.imported))
    · intro st i ds forDyn j
      cases ds with
      | nil =>
        rw [scanDeps]
        exact Or.inl rfl
      | cons d rest =>
        rcases d with ⟨id, info⟩
        rw [scanDeps]
        cases hfi : st.files[i]? with
        | none => exact ihd st i rest forDyn j
        | some parent =>
          dsimp only
          have hrel : parentRel st (some i) parent := by
            intro i' hi' f hf
            cases hi'
            rw [hfi] at hf
            injection hf with h
            rw [h]
          rcases hres : resolveM fuel env st parent (some i) id
              (edgeDynamic env forDyn info) with ⟨ores, st1⟩
          have hpres : ∀ j', statusAt st1 j' = statusAt st j' := by
            intro j'
            have hh := (resolveOnMissing_statusAt fuel).1 env st parent (some i) id
              (edgeDynamic env forDyn info) hrel j'
            rw [hres] at hh
            exact hh
          cases ores with
          | none =>
            rcases ihd st1 i rest forDyn j with h | h
            · rw [hpres j] at h
              exact Or.inl h
            · exact Or.inr h
          | some k =>
            refine statusStep_trans ?_ (ihd _ i rest forDyn j)
            have hscan := ihf st1 k j
            rw [← hedge forDyn info] at hscan
            rcases hscan with h | h
            · rw [hpres j] at h
              exact Or.inl h
            · exact Or.inr h

theorem isPrefixOf_head {a : Char} {t l : Str} (h : (a :: t).isPrefixOf l = true) :
    ∃ r, l = a :: r := by
  cases l with
  | nil => simp [List.isPrefixOf] at h
  | cons b bs =>
    simp only [List.isPrefixOf, Bool.and_eq_true, beq_iff_eq] at h
    exact ⟨bs, by rw [h.1]⟩

theorem os_not_web_browser (arch : Str) (h : archMatches arch (strL "os") = true) :
    archMatches arch (strL "web.browser") = false := by
  unfold archMatches at h ⊢
  have h1 : (strL "os").isPrefixOf arch = true := by
    rcases Bool.and_eq_true_iff.mp h with ⟨ha, _⟩
    exact ha
  obtain ⟨r, hr⟩ := isPrefixOf_head (a := 'o') (t := strL "s") h1
  subst hr
  have h2 : (strL "web.browser").isPrefixOf ('o' :: r) = false := by
    show (('w' :: strL "eb.browser").isPrefixOf ('o' :: r)) = false
    simp [List.isPrefixOf]
  rw [h2]
  rfl

theorem scanImportsFold_no_dyn (env : Env) (hwb : isWebBrowser env = false)
    (fuel : Nat) (idxs : List Nat) :
    ∀ (s : ScanState) (j : Nat),
      statusAt (idxs.foldl (fun s i =>
        match s.files[i]? with
        | some f => if !f.lazy then scanFile fuel env s i false else s
        | none => s) s) j = statusAt s j ∨
      statusAt (idxs.foldl (fun s i =>
        match s.files[i]? with
        | some f => if !f.lazy then scanFile fuel env s i false else s
        | none => s) s) j = ImportedStatus.stat := by
  induction idxs with
  | nil => intro s j; exact Or.inl rfl
  | cons i rest ih =>
    intro s j
    simp only [List.foldl_cons]
    refine statusStep_trans ?_ (ih _ j)
    cases hfi : s.files[i]? with
    | none => exact Or.inl rfl
    | some f =>
      dsimp only
      by_cases hl : (!f.lazy) = true
      · rw [if_pos hl]
        exact (scanWalk_no_dyn env hwb fuel).1 s i j
      · rw [if_neg hl]
        exact Or.inl rfl

/-- C4: the per-edge dynamic flag of `scanFile` is
`isWebBrowser() && (forDynamicImport || info.parentWasDynamic ||
info.dynamic)`; consequently a scan on a server (`os.*`) architecture
never produces the `"dynamic"` status: after `scanImports` every file
either keeps its previous status or ends `"static"`, so no file reached
through any chain of imports (dynamic import expressions included) ends
`"dynamic"`. -/
theorem c4_server_no_dynamic (env : Env)
    (hos : archMatches env.bundleArch (strL "os") = true) :
    (∀ forDyn info, edgeDynamic env forDyn info =
      (isWebBrowser env && (forDyn || info.parentWasDynamic || info.dynamic))) ∧
    (∀ fuel st j, statusAt (scanImports fuel env st) j = statusAt st j ∨
      statusAt (scanImports fuel env st) j = ImportedStatus.stat) := by
  have hwb : isWebBrowser env = false := by
    unfold isWebBrowser
    exact os_not_web_browser _ hos
  constructor
  · intro forDyn info
    rfl
  · intro fuel st j
    unfold scanImports
    exact scanImportsFold_no_dyn env hwb fuel (List.range st.files.length) st j

/-- A dynamic import edge. -/
def idyn : ImportInfo := { dynamic := true }

/-- A server scan environment where the eager entry dynamically imports
the lazy file at index 1. -/
def envServer : Env :=
  { bundleArch := strL "os.linux.x86_64",
    resolveId := fun id => if id = strL "./lazy.js" then some 1 else none,
    nativeIds := [] }

/-- The corresponding state: an eager entry point and a lazy module. -/
def stServer : ScanState :=
  { files := [ { lazy := false, deps := [(strL "./lazy.js", idyn)] },
               { lazy := true } ] }

/-- C4, witness: the statement evaluated on a server scan with one
dynamic import edge. -/
theorem c4_witness :
    archMatches envServer.bundleArch (strL "os") = true ∧
    edgeDynamic envServer true idyn =
      (isWebBrowser envServer && (true || idyn.parentWasDynamic || idyn.dynamic)) ∧
    (statusAt (scanImports 5 envServer stServer) 1 = statusAt stServer 1 ∨
      statusAt (scanImports 5 envServer stServer) 1 = ImportedStatus.stat) :=
  ⟨by decide,
   (c4_server_no_dynamic envServer (by decide)).1 true idyn,
   (c4_server_no_dynamic envServer (by decide)).2 5 stServer 1⟩

/-- C7: re-entering `scanMissingModules` with an empty map is a no-op: it
returns empty `newlyAdded` and empty `newlyMissing`, and the scanner state
(`allMissingModules`, the output files and every file's
status) is returned unchanged. -/
theorem c7_scanMissingModules_empty (fuel : Nat) (env : Env) (st : ScanState) :
    scanMissingModules fuel env st [] = ([], [], st) := rfl

theorem assocLookup_assocSet_ne {β : Type} (l : List (Str × β)) (k k' : Str) (v : β)
    (h : k' ≠ k) : assocLookup (assocSet l k v) k' = assocLookup l k' := by
  have h' : ¬ (k = k') := fun he => h he.symm
  induction l with
  | nil => simp [assocSet, assocLookup, List.find?, h']
  | cons p rest ih =>
    rcases p with ⟨k0, v0⟩
    by_cases h0 : k0 = k
    · subst h0
      simp [assocSet, assocLookup, List.find?_cons, h']
    · by_cases h0' : k0 = k'
      · subst h0'
        simp [assocSet, assocLookup, List.find?_cons, h0]
      · simp only [assocSet, if_neg h0]
        unfold assocLookup at ih ⊢
        rw [List.find?_cons, List.find?_cons, decide_eq_false h0']
        exact ih

theorem assocLookup_mergeMissing_single (t : MissingMap) (q : Str)
    (l : List ImportInfo) (p : Str) (hne : p ≠ q) :
    assocLookup (mergeMissing t [(q, l)]) p = assocLookup t p := by
  unfold mergeMissing
  simp only [List.foldl_cons, List.foldl_nil]
  exact assocLookup_assocSet_ne t q p _ hne

theorem putFile_allMissing (st : ScanState) (pidx : Option Nat) (f : GFile) :
    (putFile st pidx f).allMissingModules = st.allMissingModules := by
  cases pidx <;> rfl

theorem length_lt_nativeStub (id : Str) : id.length < (getNativeStubId id).length := by
  unfold getNativeStubId
  simp [strL]
  omega

/-- `resolve`/`onMissing` on a specifier only ever touch
`allMissingModules` entries whose key is at least as long as the
specifier (native stub rewriting strictly lengthens the specifier). -/
theorem resolveOnMissing_frame (fuel : Nat) :
    (∀ env st parent pidx id forDyn p, p.length < id.length →
      assocLookup (resolveM fuel env st parent pidx id forDyn).2.allMissingModules p
        = assocLookup st.allMissingModules p) ∧
    (∀ env st parent pidx id forDyn p, p.length < id.length →
      assocLookup (onMissing fuel env st parent pidx id forDyn).2.allMissingModules p
        = assocLookup st.allMissingModules p) := by
  induction fuel with
  | zero =>
    constructor <;> (intro env st parent pidx id forDyn p hp; rfl)
  | succ fuel ih =>
    obtain ⟨ihr, iho⟩ := ih
    have hrec : ∀ env st parent pidx id forDyn p, p ≠ id →
        assocLookup (onMissingRecord env st parent pidx id forDyn).2.allMissingModules p
          = assocLookup st.allMissingModules p := by
      intro env st parent pidx id forDyn p hne
      unfold onMissingRecord
      rw [assocLookup_mergeMissing_single _ _ _ _ hne, putFile_allMissing]
    constructor
    · intro env st parent pidx id forDyn p hp
      rw [resolveM]
      cases hres : env.resolveId id with
      | some k => rfl
      | none => exact iho env st parent pidx id forDyn p hp
    · intro env st parent pidx id forDyn p hp
      have hne : p ≠ id := by
        intro he
        rw [he] at hp
        exact lt_irrefl _ hp
      rw [onMissing]
      by_cases happ : (decide (env.name = []) && isNative env id && isWeb env) = true
      · rw [if_pos happ]
        by_cases hstub : getNativeStubId id ≠ id
        · rw [if_pos hstub]
          rw [ihr env _ _ pidx (getNativeStubId id) forDyn p
            (lt_trans hp (length_lt_nativeStub id))]
          rw [putFile_allMissing]
        · rw [if_neg hstub]
          exact hrec env st parent pidx id forDyn p hne
      · rw [if_neg happ]
        exact hrec env st parent pidx id forDyn p hne

theorem assocLookup_assocUpdate_self {β : Type} (l : List (Str × β)) (k : Str)
    (f : β → β) : assocLookup (assocUpdate l k f) k = (assocLookup l k).map f := by
  induction l with
  | nil => rfl
  | cons p rest ih =>
    rcases p with ⟨k0, v0⟩
    by_cases h0 : k0 = k
    · subst h0
      simp [assocUpdate, assocLookup, List.find?_cons]
    · simp only [assocUpdate, if_neg h0]
      unfold assocLookup at ih ⊢
      rw [List.find?_cons, List.find?_cons, decide_eq_false h0]
      exact ih

/-- C8 (amended): on a web architecture, during an application scan (the
scanner name is empty — package scans fall through to the plain missing
path), when resolution of a bare import of a native Node built-in fails,
the scanner records the `meteor-node-stubs/deps/<id>.js` stub id as an
implicit helper on the importing edge and returns the resolution of the
stub instead; the original id is not recorded in `allMissingModules` (a
rewritten resolution can only record strictly longer stub keys). -/
theorem c8_native_stub_rewrite (fuel : Nat) (env : Env) (st : ScanState)
    (parent : GFile) (pidx : Option Nat) (id : Str) (forDyn : Bool)
    (di : ImportInfo)
    (happ : env.name = []) (hweb : isWeb env = true)
    (hnat : isNative env id = true) (hmiss : env.resolveId id = none)
    (hdep : assocLookup parent.deps id = some di) :
    resolveM (fuel + 2) env st parent pidx id forDyn =
      resolveM fuel env
        (putFile st pidx (addHelper parent id (getNativeStubId id) forDyn))
        (addHelper parent id (getNativeStubId id) forDyn) pidx
        (getNativeStubId id) forDyn ∧
    assocLookup (resolveM (fuel + 2) env st parent pidx id forDyn).2.allMissingModules id
      = assocLookup st.allMissingModules id ∧
    assocLookup (addHelper parent id (getNativeStubId id) forDyn).deps id
      = some { di with helpers := assocSet di.helpers (getNativeStubId id) forDyn } := by
  have hstub : getNativeStubId id ≠ id := by
    intro he
    have hlen := length_lt_nativeStub id
    rw [he] at hlen
    exact lt_irrefl _ hlen
  have heq : resolveM (fuel + 2) env st parent pidx id forDyn =
      resolveM fuel env
        (putFile st pidx (addHelper parent id (getNativeStubId id) forDyn))
        (addHelper parent id (getNativeStubId id) forDyn) pidx
        (getNativeStubId id) forDyn := by
    rw [resolveM]
    rw [hmiss]
    rw [onMissing]
    rw [if_pos (by simp [happ, hnat, hweb])]
    rw [if_pos hstub]
  refine ⟨heq, ?_, ?_⟩
  · rw [heq]
    rw [(resolveOnMissing_frame fuel).1 env _ _ pidx (getNativeStubId id) forDyn id
      (length_lt_nativeStub id)]
    rw [putFile_allMissing]
  · show assocLookup (assocUpdate parent.deps id _) id = _
    rw [assocLookup_assocUpdate_self, hdep]
    rfl

/-- A package-scan environment on a web arch where `fs` is native and
nothing resolves. -/
def envPkg : Env :=
  { bundleArch := strL "web.browser", name := strL "pkg",
    resolveId := fun _ => none, nativeIds := [strL "fs"] }

/-- A parent file importing the native built-in `fs`. -/
def parentPkg : GFile :=
  { sourcePath := strL "a.js", deps := [(strL "fs", ({} : ImportInfo))] }

/-- C8, counterexample: on a web arch, with resolution of the native id
`fs` failing, a PACKAGE scan (non-empty scanner name) records `fs` in
`allMissingModules` and performs no stub rewrite, refuting the claim as
stated for every web scan. -/
theorem c8_counterexample :
    isWeb envPkg = true ∧ isNative envPkg (strL "fs") = true ∧
    envPkg.resolveId (strL "fs") = none ∧
    (resolveM 3 envPkg {} parentPkg none (strL "fs") false).1 = none ∧
    assocHas (resolveM 3 envPkg {} parentPkg none (strL "fs") false).2.allMissingModules
      (strL "fs") = true := by decide

/-- An application-scan environment on a web arch where `fs` is native
and nothing resolves. -/
def envApp : Env :=
  { bundleArch := strL "web.browser", name := [],
    resolveId := fun _ => none, nativeIds := [strL "fs"] }

/-- C8, witness: the amended statement evaluated on an application scan. -/
theorem c8_witness :
    envApp.name = [] ∧ isWeb envApp = true ∧ isNative envApp (strL "fs") = true ∧
    envApp.resolveId (strL "fs") = none ∧
    assocLookup
      (resolveM 5 envApp ({} : ScanState) parentPkg none (strL "fs") false).2.allMissingModules
      (strL "fs") = assocLookup ({} : ScanState).allMissingModules (strL "fs") :=
  ⟨rfl, by decide, by decide, rfl,
   (c8_native_stub_rewrite 3 envApp {} parentPkg none (strL "fs") false {}
     rfl (by decide) (by decide) rfl (by decide)).2.1⟩

/-- The claimed merge policy, worded as the specification states it: a
source entry whose string `parentPath` equals the `parentPath` of an
entry already in the target list replaces that entry in place (later
entries win); an entry without a string `parentPath` is always appended;
a specifier absent from the target starts from a fresh list. -/
def mergeOneClaim (orig src : List ImportInfo) : List ImportInfo :=
  src.foldl (fun cur info =>
    match info.parentPath with
    | some p =>
      match orig.findIdx? (fun o => o.parentPath = some p) with
      | some index => cur.set index info
      | none => cur ++ [info]
    | none => cur ++ [info]) orig

/-- `mergeMissing` as the claim words it, per specifier. -/
def mergeMissingClaim (target source : MissingMap) : MissingMap :=
  source.foldl (fun acc p =>
    assocSet acc p.1 (mergeOneClaim ((assocLookup acc p.1).getD []) p.2)) target

theorem pathToIndexOf_none (rest : List ImportInfo) (p : Str)
    (h1 : ∀ o ∈ rest, o.parentPath.isSome = true)
    (hnp : some p ∉ rest.map (fun o => o.parentPath)) :
    pathToIndexOf rest p = none := by
  induction rest with
  | nil => rfl
  | cons o r ih =>
    have ho := h1 o (List.mem_cons_self o r)
    obtain ⟨q, hq⟩ := Option.isSome_iff_exists.mp ho
    have hqp : q ≠ p := by
      intro he
      exact hnp (by rw [List.map_cons, hq, he]; exact List.mem_cons_self _ _)
    rw [pathToIndexOf]
    rw [ih (fun o' ho' => h1 o' (List.mem_cons_of_mem _ ho'))
      (fun hm => hnp (by rw [List.map_cons]; exact List.mem_cons_of_mem _ hm))]
    rw [hq]
    simp [parentPathKey, hqp]

theorem pathToIndexOf_eq_findIdx (orig : List ImportInfo)
    (h1 : ∀ o ∈ orig, o.parentPath.isSome = true)
    (h2 : (orig.map (fun o => o.parentPath)).Nodup) (p : Str) :
    pathToIndexOf orig p = orig.findIdx? (fun o => o.parentPath = some p) := by
  induction orig with
  | nil => rfl
  | cons o rest ih =>
    have ho := h1 o (List.mem_cons_self o rest)
    obtain ⟨q, hq⟩ := Option.isSome_iff_exists.mp ho
    rw [List.map_cons, List.nodup_cons] at h2
    rw [pathToIndexOf, List.findIdx?_cons, List.findIdx?_succ]
    by_cases hqp : q = p
    · subst hqp
      rw [pathToIndexOf_none rest q (fun o' ho' => h1 o' (List.mem_cons_of_mem _ ho'))
        (hq ▸ h2.1)]
      rw [hq]
      simp [parentPathKey]
    · rw [ih (fun o' ho' => h1 o' (List.mem_cons_of_mem _ ho')) h2.2]
      have hpred : (decide (o.parentPath = some p)) = false := by
        rw [hq]
        exact decide_eq_false (fun he => hqp (Option.some.inj he))
      rw [hpred, if_neg Bool.false_ne_true]
      cases rest.findIdx? (fun o => o.parentPath = some p) <;> simp [hq, parentPathKey, hqp]

theorem mergeOne_eq_claim (orig src : List ImportInfo)
    (h1 : ∀ o ∈ orig, o.parentPath.isSome = true)
    (h2 : (orig.map (fun o => o.parentPath)).Nodup) :
    mergeOne orig src = mergeOneClaim orig src := by
  unfold mergeOne mergeOneClaim
  have hfun : (fun (cur : List ImportInfo) (info : ImportInfo) =>
      match info.parentPath with
      | some p =>
        match pathToIndexOf orig p with
        | some index => cur.set index info
        | none => cur ++ [info]
      | none => cur ++ [info]) =
      (fun (cur : List ImportInfo) (info : ImportInfo) =>
      match info.parentPath with
      | some p =>
        match orig.findIdx? (fun o => o.parentPath = some p) with
        | some index => cur.set index info
        | none => cur ++ [info]
      | none => cur ++ [info]) := by
    funext cur info
    cases hpp : info.parentPath with
    | none => rfl
    | some p =>
      show (match pathToIndexOf orig p with
        | some index => cur.set index info
        | none => cur ++ [info]) =
        (match orig.findIdx? (fun o => o.parentPath = some p) with
        | some index => cur.set index info
        | none => cur ++ [info])
      rw [pathToIndexOf_eq_findIdx orig h1 h2 p]
  rw [hfun]

theorem assocLookup_some_mem {β : Type} (l : List (Str × β)) (k : Str) (v : β)
    (h : assocLookup l k = some v) : (k, v) ∈ l := by
  unfold assocLookup at h
  cases hf : l.find? (fun p => p.1 = k) with
  | none => rw [hf] at h; cases h
  | some pr =>
    rw [hf] at h
    injection h with h2
    have hm := List.mem_of_find?_eq_some hf
    have hp : pr.1 = k := by simpa using List.find?_some hf
    have hpr : pr = (k, v) := Prod.ext hp h2
    rw [← hpr]
    exact hm

theorem mem_assocSet {β : Type} {ql : Str × β} (l : List (Str × β)) (k : Str) (v : β)
    (h : ql ∈ assocSet l k v) : ql.1 = k ∨ ql ∈ l := by
  induction l with
  | nil =>
    unfold assocSet at h
    rcases List.mem_singleton.mp h with he
    left
    rw [he]
  | cons p rest ih =>
    rcases p with ⟨k0, v0⟩
    unfold assocSet at h
    by_cases h0 : k0 = k
    · rw [if_pos h0] at h
      rcases List.mem_cons.mp h with he | hm
      · left
        rw [he, h0]
      · right
        exact List.mem_cons_of_mem _ hm
    · rw [if_neg h0] at h
      rcases List.mem_cons.mp h with he | hm
      · right
        rw [he]
        exact List.mem_cons_self _ _
      · rcases ih hm with h' | h'
        · left
          exact h'
        · right
          exact List.mem_cons_of_mem _ h'

theorem mergeMissing_eq_claim_aux (s : MissingMap) : ∀ (t : MissingMap),
    (∀ ql ∈ t, ql.1 ∈ s.map Prod.fst →
      (∀ i ∈ ql.2, i.parentPath.isSome = true) ∧
      (ql.2.map (fun i => i.parentPath)).Nodup) →
    (s.map Prod.fst).Nodup →
    mergeMissing t s = mergeMissingClaim t s := by
  induction s with
  | nil => intro t _ _; rfl
  | cons qp rest ih =>
    intro t ht hs
    rcases qp with ⟨q, l⟩
    rw [List.map_cons, List.nodup_cons] at hs
    have horig : (∀ i ∈ (assocLookup t q).getD [], i.parentPath.isSome = true) ∧
        (((assocLookup t q).getD []).map (fun i => i.parentPath)).Nodup := by
      cases hl0 : assocLookup t q with
      | none => exact ⟨fun i hi => absurd hi (by simp), by simp⟩
      | some l0 =>
        have hmem : (q, l0) ∈ t := assocLookup_some_mem t q l0 hl0
        have hh := ht (q, l0) hmem (by simp)
        simpa [hl0] using hh
    unfold mergeMissing mergeMissingClaim
    simp only [List.foldl_cons]
    rw [mergeOne_eq_claim _ _ horig.1 horig.2]
    have ht' : ∀ ql ∈ assocSet t q (mergeOneClaim ((assocLookup t q).getD []) l),
        ql.1 ∈ rest.map Prod.fst →
        (∀ i ∈ ql.2, i.parentPath.isSome = true) ∧
        (ql.2.map (fun i => i.parentPath)).Nodup := by
      intro ql hql hmem
      rcases mem_assocSet _ _ _ hql with he | hin
      · exact absurd (he ▸ hmem) hs.1
      · exact ht ql hin (List.mem_cons_of_mem _ hmem)
    have := ih _ ht' hs.2
    unfold mergeMissing mergeMissingClaim at this
    exact this

/-- C9: `ImportScanner.mergeMissing(target, source)` implements the
claimed merge policy: for every specifier and every `ImportInfo` of the
source list, an entry whose string `parentPath` equals the `parentPath`
of an entry already in the target list replaces that entry in place
(later wins), an entry without a string `parentPath` is always appended
without deduplication, and specifiers absent from the target start a
fresh list.  Stated on well-formed targets (every recorded entry has a
string `parentPath`, distinct within each list), where "the entry with
that parentPath" is well defined and the string-keyed `pathToIndex`
cannot collide with the `"undefined"` key of a parentless entry. -/
theorem c9_mergeMissing_policy (t s : MissingMap)
    (ht : ∀ ql ∈ t, (∀ i ∈ ql.2, i.parentPath.isSome = true) ∧
      (ql.2.map (fun i => i.parentPath)).Nodup)
    (hs : (s.map Prod.fst).Nodup) :
    mergeMissing t s = mergeMissingClaim t s :=
  mergeMissing_eq_claim_aux s t (fun ql hql _ => ht ql hql) hs

/-- A target missing map with two seen parents for specifier `m`. -/
def c9target : MissingMap :=
  [(strL "m", [{ parentPath := some (strL "/a") }, { parentPath := some (strL "/b") }])]

/-- A source map that replaces the `/a` entry, appends a parentless seed
entry and a new parent, and introduces a fresh specifier. -/
def c9source : MissingMap :=
  [(strL "m", [{ parentPath := some (strL "/a"), dynamic := true },
               ({} : ImportInfo),
               { parentPath := some (strL "/c") }]),
   (strL "n", [{ parentPath := some (strL "/a") }])]

/-- C9, witness: the merge policy evaluated on concrete maps. -/
theorem c9_witness :
    (∀ ql ∈ c9target, (∀ i ∈ ql.2, i.parentPath.isSome = true) ∧
      (ql.2.map (fun i => i.parentPath)).Nodup) ∧
    (c9source.map Prod.fst).Nodup ∧
    mergeMissing c9target c9source = mergeMissingClaim c9target c9source :=
  ⟨by decide, by decide, c9_mergeMissing_policy c9target c9source (by decide) (by decide)⟩
